import Mathlib

/-!
Verification of the hydrologic forecasting engine (backend/utils/regression.js)
against its natural-language specification.

The engine is shallowly embedded: JavaScript numbers are modelled as real
numbers (`ℝ`), absent/null values as `Option`, JS `Map`s as insertion-ordered
association lists, `Math.pow` with a real exponent as `Real.rpow`, and the
wall clock (`new Date()`) as an explicit hour-count input.  Every definition
below mirrors a specific function of the source file; line references are to
`backend/utils/regression.js`.
-/

namespace Akva

/-! ### Association-list model of JS `Map` (insertion order, in-place update) -/

/-- Analogue of JS `Map.get`. -/
def alGet {K V : Type} [DecidableEq K] (k : K) : List (K × V) → Option V
  | [] => none
  | (k', v) :: rest => if k' = k then some v else alGet k rest

/-- Update the value under a key; if the key is absent the pair is appended at
the end, matching JS `Map.set` semantics (existing keys keep their position). -/
def alUpdate {K V : Type} [DecidableEq K] (k : K) (f : Option V → V) :
    List (K × V) → List (K × V)
  | [] => [(k, f none)]
  | (k', v) :: rest =>
      if k' = k then (k, f (some v)) :: rest else (k', v) :: alUpdate k f rest

/-- Analogue of JS `Map.set`. -/
def alSet {K V : Type} [DecidableEq K] (k : K) (v : V) (m : List (K × V)) :
    List (K × V) :=
  alUpdate k (fun _ => v) m

/-- JS `a || b` on strings: first operand unless it is falsy (empty). -/
def orStr (a b : String) : String := if a = "" then b else a

/-- JS `String.prototype.trim()`: strip whitespace from both ends.
(Defined structurally so that it evaluates on literals; Lean's own
`String.trim` is well-founded recursion, which the kernel cannot reduce.) -/
def jsTrim (s : String) : String :=
  ⟨((s.data.dropWhile Char.isWhitespace).reverse.dropWhile
      Char.isWhitespace).reverse⟩

/-! ### Small numeric helpers of the source (`dot`, `clamp`, rounding) -/

/-- JS `dot(a, b)` (regression.js): sum over the common prefix. -/
def dotList (a b : List ℝ) : ℝ :=
  (List.zip a b).foldl (fun s p => s + p.1 * p.2) 0

/-- JS `clamp(v, lo, hi)` with possibly-null bounds (regression.js). -/
noncomputable def clampO (v : ℝ) (lo hi : Option ℝ) : ℝ :=
  let x := match lo with
    | some l => if v < l then l else v
    | none => v
  match hi with
    | some h => if x > h then h else x
    | none => x

/-- JS `Math.round(x * 10) / 10` (half-up rounding to one decimal). -/
noncomputable def round10 (x : ℝ) : ℝ := ((⌊x * 10 + 1 / 2⌋ : ℤ) : ℝ) / 10

/-! ### Data model (§3 of the spec) -/

/-- One current observation record (fields already parsed; `none` models a
null/unparseable value, as produced by `num`). -/
structure ObsRecord where
  station_code : String
  station_name : String
  river_name : String
  basin_name : String
  water_level_cm : Option ℝ
  precipitation_mm : Option ℝ
  air_temp_c : Option ℝ
  wind_speed_mps : Option ℝ
  wind_dir_deg : Option ℝ
  rh_pct : Option ℝ
  roughness_n : Option ℝ

/-- Per-station settings row. -/
structure Settings where
  station_code : String
  station_name : String
  river_name : String
  datum_offset_cm : Option ℝ
  min_level_cm : Option ℝ
  max_level_cm : Option ℝ

/-- Rating-curve record `{h0_cm, a, b}`. -/
structure RatingCurve where
  h0_cm : Option ℝ
  a : Option ℝ
  b : Option ℝ

/-- Basin parameters `{runoff_coeff, baseflow_cms}`. -/
structure BasinParams where
  runoff_coeff : Option ℝ
  baseflow_cms : Option ℝ

/-- A reach (graph edge) record. -/
structure Reach where
  from_code : String
  to_code : String
  length_km : Option ℝ
  slope_m_m : Option ℝ
  n_mann : Option ℝ
  width_m : Option ℝ
  depth_m : Option ℝ

/-- The hydrologic auxiliaries handed to the orchestrator. -/
structure HydroAux where
  network : List Reach
  rating : List (String × RatingCurve)
  basins : List (String × BasinParams)

/-! ### Rating-curve model (regression.js lines 139-150) -/

/-- `stageToQ_cm(h_cm, rc)`: discharge from stage via the power-law curve. -/
noncomputable def stageToQ_cm (h_cm : Option ℝ) (rc : Option RatingCurve) : ℝ :=
  match rc with
  | none => 0
  | some c =>
      let h := max (h_cm.getD 0 - c.h0_cm.getD 0) 0
      c.a.getD 0.03 * h ^ (c.b.getD 1.6)

/-- `qToStage_cm(Q, rc)`: inverse conversion; degenerates to `h0` when
`a ≤ 0` or `b ≤ 0`, and to `0` when the curve is absent. -/
noncomputable def qToStage_cm (Q : ℝ) (rc : Option RatingCurve) : ℝ :=
  match rc with
  | none => 0
  | some c =>
      let a := c.a.getD 0.03
      let b := c.b.getD 1.6
      let h0 := c.h0_cm.getD 0
      if a ≤ 0 ∨ b ≤ 0 then h0 else h0 + (max Q 0 / a) ^ (1 / b)

/-! ### Celerity and Muskingum routing (regression.js lines 153-170) -/

/-- `celerity_mps(Q, width, depth, slope, n)`; the discharge argument is
unused in the source as well. -/
noncomputable def celerity_mps (_Q width depth slope n : ℝ) : ℝ :=
  let R := width * depth / (width + 2 * depth)
  let v := 1 / n * (max R 1e-6) ^ ((2 : ℝ) / 3) * Real.sqrt (max slope 1e-6)
  max (v + Real.sqrt (max (9.81 * depth) 0)) 0.1

/-- Previous-step `{in, out}` state of one edge. -/
structure EdgeState where
  inQ : ℝ
  outQ : ℝ

/-- `muskingumStep(Qin_up, Qprev_seg, K, X, dt)`. -/
noncomputable def muskingumStep (Qin_up : ℝ) (prevSeg : EdgeState)
    (K X dt : ℝ) : ℝ :=
  let denom := K - K * X + 0.5 * dt
  let C0 := (-(K * X) + 0.5 * dt) / denom
  let C1 := (K * X + 0.5 * dt) / denom
  let C2 := (K - K * X - 0.5 * dt) / denom
  max (C0 * Qin_up + C1 * prevSeg.inQ + C2 * prevSeg.outQ) 0

/-! ### Graph helpers (regression.js lines 173-216) -/

/-- `keyEdge(a, b)` — the string key identifying an edge. -/
def keyEdge (a b : String) : String := jsTrim a ++ "->" ++ jsTrim b

/-- `buildGraph(reaches)`: trim endpoints, drop edges with an empty one. -/
def buildGraph (reaches : List Reach) : List Reach :=
  (reaches.map (fun r =>
    ⟨jsTrim r.from_code, jsTrim r.to_code, r.length_km, r.slope_m_m, r.n_mann,
      r.width_m, r.depth_m⟩)).filter
    (fun e => e.from_code ≠ "" ∧ e.to_code ≠ "")

/-- Insertion-order deduplication, the iteration order of a JS `Set` built
from a list (first occurrence kept). -/
def dedupFirst : List String → List String
  | [] => []
  | x :: xs => x :: dedupFirst (xs.filter (fun y => y ≠ x))
termination_by l => l.length
decreasing_by
  simp only [List.length_cons]
  exact Nat.lt_succ_of_le (List.length_filter_le _ _)

/-- The `sources` set of `topoOrDepthFirst`: from-nodes with no incoming
edge, in insertion order. -/
def sourceNodes (reaches : List Reach) : List String :=
  dedupFirst ((reaches.map (fun e => e.from_code)).filter
    (fun c => decide (c ∉ reaches.map (fun e => e.to_code))))

/-- State of the depth-first edge traversal: indices of visited edges (most
recent first) and the emitted order (indexed edges, oldest first). -/
structure DState where
  used : List ℕ
  ordered : List (ℕ × Reach)

/-- The recursive `dfs` of `topoOrDepthFirst`, made total with fuel.  Each
nested call is preceded by marking a fresh edge index, so the recursion
depth of the JS original is bounded by the number of edges; with initial
fuel `edges.length + 1` the fuel never runs out (see `FuelInv` below), and
the function agrees with the unbounded JS recursion. -/
def dfsGo (all : List (ℕ × Reach)) :
    ℕ → String → List (ℕ × Reach) → DState → DState
  | 0, _, _, st => st
  | _ + 1, _, [], st => st
  | fuel + 1, node, (i, e) :: rest, st =>
      if i ∈ st.used ∨ e.from_code ≠ node then
        dfsGo all (fuel + 1) node rest st
      else
        dfsGo all (fuel + 1) node rest
          (dfsGo all fuel e.to_code all ⟨i :: st.used, st.ordered ++ [(i, e)]⟩)
termination_by fuel _ lst _ => (fuel, lst.length)
decreasing_by
  · exact Prod.Lex.right _ (Nat.lt_succ_of_le (Nat.le_refl _))
  · exact Prod.Lex.left _ _ (Nat.lt_succ_of_le (Nat.le_refl _))
  · exact Prod.Lex.right _ (Nat.lt_succ_of_le (Nat.le_refl _))

/-- Result of the source-driven DFS phase of `topoOrDepthFirst`. -/
def topoState (reaches : List Reach) : DState :=
  (sourceNodes reaches).foldl
    (fun st s => dfsGo reaches.enum (reaches.length + 1) s reaches.enum st)
    ⟨[], []⟩

/-- `topoOrDepthFirst(reaches)`: DFS order from the sources, then any
unvisited edges appended in input order. -/
def topoOrDepthFirst (reaches : List Reach) : List Reach :=
  let st := topoState reaches
  (st.ordered ++ reaches.enum.filter (fun p => decide (p.1 ∉ st.used))).map
    (fun p => p.2)

/-! ### Basin precipitation aggregation (regression.js lines 218-228) -/

/-- One step of `aggregateLatestPrecip`: skip falsy basin names and null
readings, otherwise keep the running maximum for the (untrimmed) basin. -/
def aggUpd (m : List (String × ℝ)) (r : ObsRecord) : List (String × ℝ) :=
  if r.basin_name = "" then m
  else
    match r.precipitation_mm with
    | none => m
    | some v =>
        alUpdate r.basin_name
          (fun prev =>
            match prev with
            | none => v
            | some p => max p v) m

/-- `aggregateLatestPrecip(currentInputs)`: per (untrimmed, non-empty) basin
name, the running maximum of the non-null precipitation readings. -/
def aggregateLatestPrecip (currentInputs : List ObsRecord) :
    List (String × ℝ) :=
  currentInputs.foldl aggUpd []

/-! ### Stable sorting (JS `Array.prototype.sort` with a comparator) -/

/-- Insert `x` into `l`: move past the elements strictly smaller than `x`
and place `x` before the first element that is not.  Sorting the tail first
and inserting the head this way keeps equal keys in their original relative
order — JS sorts are stable. -/
def insertOrd {α : Type} (ltB : α → α → Bool) (x : α) : List α → List α
  | [] => [x]
  | y :: ys => if ltB y x then y :: insertOrd ltB x ys else x :: y :: ys

/-- Stable insertion sort. -/
def sortOrd {α : Type} (ltB : α → α → Bool) : List α → List α
  | [] => []
  | x :: xs => insertOrd ltB x (sortOrd ltB xs)

/-! ### Ridge-regression training (regression.js lines 68-131) -/

/-- A historical record as stored by the grouping loop of `trainFromRows`
(fields already through `num`; wind/humidity/roughness are set to null by
the source, so they are omitted).  `date` is the parsed timestamp in hours;
`none` models a null date (which JS coerces to epoch 0 when sorting). -/
structure HistRaw where
  station_code : String
  date : Option ℤ
  water_level_cm : Option ℝ
  precipitation_mm : Option ℝ
  air_temp_c : Option ℝ

/-- The normalised per-station record pushed into `byStation` (the station
code is stored trimmed). -/
def normHist (r : HistRaw) : HistRaw :=
  ⟨jsTrim r.station_code, r.date, r.water_level_cm, r.precipitation_mm,
    r.air_temp_c⟩

/-- One grouping step of `trainFromRows`: append the normalised record to
its station's bucket (empty codes skipped). -/
def bsStep (m : List (String × List HistRaw)) (r : HistRaw) :
    List (String × List HistRaw) :=
  if jsTrim r.station_code = "" then m
  else alUpdate (jsTrim r.station_code)
    (fun cur => cur.getD [] ++ [normHist r]) m

/-- The `byStation` map of `trainFromRows`: records grouped by trimmed
station code (empty codes skipped), in input order. -/
def byStationMap (hist : List HistRaw) : List (String × List HistRaw) :=
  hist.foldl bsStep []

/-- All records of `hist` belonging to station `code`, normalised —
the value `byStationMap` associates to `code`. -/
def stationRowsOf (hist : List HistRaw) (code : String) : List HistRaw :=
  (hist.filter (fun r => jsTrim r.station_code = code)).map normHist

/-- The sort key used by `rows.sort((a, b) => new Date(a.date) - new Date(b.date))`;
a null date coerces to epoch `0`. -/
def histKey (r : HistRaw) : ℤ := r.date.getD 0

/-- The design vector `designRow(today)` for a grouped historical record:
wind speed/direction, humidity and roughness are null in these records. -/
def designVecHist (r : HistRaw) : Fin 8 → ℝ :=
  ![1, r.water_level_cm.getD 0, r.precipitation_mm.getD 0,
    r.air_temp_c.getD 0, 0, 0, 0, 0]

/-- Consecutive pairs `(rows[i], rows[i+1])` of a list. -/
def consecPairs {α : Type} : List α → List (α × α)
  | [] => []
  | [_] => []
  | a :: b :: rest => (a, b) :: consecPairs (b :: rest)

/-- The valid `(design row, target)` training pairs of one station: sort by
date (stably), take consecutive pairs with matching station codes and a
non-null target water level. -/
def trainPairs (rows : List HistRaw) : List ((Fin 8 → ℝ) × ℝ) :=
  (consecPairs (sortOrd (fun a b => decide (histKey a < histKey b)) rows)).filterMap
    (fun p =>
      if jsTrim p.1.station_code ≠ jsTrim p.2.station_code then none
      else (p.2.water_level_cm).map (fun yi => (designVecHist p.1, yi)))

/-- `XᵀX` of the stacked design rows. -/
def xtx (X : List (Fin 8 → ℝ)) : Matrix (Fin 8) (Fin 8) ℝ :=
  Matrix.of fun i j => (X.map (fun row => row i * row j)).sum

/-- `Xᵀy`. -/
def xty (pairs : List ((Fin 8 → ℝ) × ℝ)) : Fin 8 → ℝ :=
  fun i => (pairs.map (fun p => p.1 i * p.2)).sum

/-- The ridge solve `β = (XᵀX + λI)⁻¹ Xᵀy`, `λ = 0.001`.  The JS
`try/catch` retries with an extra `1e-6` jitter when the float inversion
throws; in exact arithmetic that corresponds to a singular `XᵀX + λI`
(which in fact never happens, `XᵀX` being positive semidefinite). -/
noncomputable def ridgeCoef (pairs : List ((Fin 8 → ℝ) × ℝ)) : List ℝ :=
  let A := xtx (pairs.map (fun p => p.1))
  let M := A + (0.001 : ℝ) • (1 : Matrix (Fin 8) (Fin 8) ℝ)
  let inv :=
    if M.det ≠ 0 then M⁻¹
    else (A + (0.001 + 1e-6 : ℝ) • (1 : Matrix (Fin 8) (Fin 8) ℝ))⁻¹
  List.ofFn fun i => inv.mulVec (xty pairs) i

/-- The persisted regression model `{ trainedAt, stations }`. -/
structure RegModel where
  trainedAt : Option ℕ
  stations : List (String × List ℝ)

/-- The per-station update of `trainFromRows`: stations with at least 5
valid pairs get fresh coefficients, the rest keep theirs. -/
noncomputable def trainUpd (acc : List (String × List ℝ))
    (p : String × List HistRaw) : List (String × List ℝ) :=
  let pairs := trainPairs p.2
  if pairs.length < 5 then acc else alSet p.1 (ridgeCoef pairs) acc

/-- `trainFromRows(hist, model)` with the clock as the explicit input
`now`; the per-station update is `trainUpd` above. -/
noncomputable def trainFromRows (hist : List HistRaw) (model : RegModel)
    (now : ℕ) : RegModel :=
  ⟨some now, (byStationMap hist).foldl trainUpd model.stations⟩

/-! ### Forecast outputs (regression.js lines 232-514).  Times are modelled
as hour counts since the epoch (the source zeroes minutes/seconds); an ISO
timestamp is then the hour count, a date string `slice(0, 10)` is the day
number `hour / 24`, and `getHours()` is `hour % 24` (UTC = local assumed). -/

/-- One hourly forecast row. -/
structure Row where
  forecast_date : ℕ
  forecast_datetime : ℕ
  station_code : String
  station_name : String
  river_name : String
  forecast_water_level_cm : ℝ

/-- One daily-table row. -/
structure TableRow where
  river : String
  station : String
  date_today : ℕ
  wl_today_cm : Option ℝ
  wl_tomorrow_cm : Option ℝ
  wl_day_after_cm : Option ℝ

/-- One chart point pushed by `pushPoint`. -/
structure SeriesPoint where
  t : ℕ
  hour : ℕ
  wl_cm : ℝ
  river_name : String
  station_name : String

/-- The result `{rows, table, series}` of `forecastWaterLevels`. -/
structure ForecastOut where
  rows : List Row
  table : List TableRow
  series : List (String × List SeriesPoint)

/-- Row comparator: station code, then timestamp (ISO strings compare like
their hour counts). -/
def rowLt (a b : Row) : Bool :=
  decide (a.station_code < b.station_code ∨
    (a.station_code = b.station_code ∧
      a.forecast_datetime < b.forecast_datetime))

/-- Daily-table comparator: river, then station. -/
def tblLt (a b : TableRow) : Bool :=
  decide (a.river < b.river ∨ (a.river = b.river ∧ a.station < b.station))

/-- `settingsByCode` (trimmed station codes, line 238). -/
def settingsByCode (settings : List Settings) : List (String × Settings) :=
  settings.foldl (fun m s => alSet (jsTrim s.station_code) s m) []

/-- The `sByCode` map used for the hydro daily table (line 404), keyed by
the raw, untrimmed station code. -/
def rawSettingsByCode (settings : List Settings) : List (String × Settings) :=
  settings.foldl (fun m s => alSet s.station_code s m) []

/-- `nowByCode` (trimmed codes, empty codes skipped, lines 241-246). -/
def nowByCode (currentInputs : List ObsRecord) : List (String × ObsRecord) :=
  currentInputs.foldl
    (fun m r =>
      if jsTrim r.station_code = "" then m
      else alSet (jsTrim r.station_code) r m)
    []

/-- The design vector `designRow(r)` of a current observation record. -/
def designVecObs (r : ObsRecord) : List ℝ :=
  [1, r.water_level_cm.getD 0, r.precipitation_mm.getD 0,
    r.air_temp_c.getD 0, r.wind_speed_mps.getD 0, r.wind_dir_deg.getD 0,
    r.rh_pct.getD 0, r.roughness_n.getD 0]

/-! #### Hydrologic routing branch (lines 269-430) -/

/-- Initial per-station discharge `Qnow` from the observed stage. -/
noncomputable def initQnow (now : List (String × ObsRecord))
    (rating : List (String × RatingCurve)) : List (String × ℝ) :=
  now.foldl
    (fun m p => alSet p.1 (stageToQ_cm p.2.water_level_cm (alGet p.1 rating)) m)
    []

/-- The lateral inflow of one station (body of the loop at lines 290-298):
`baseflow + max(Pmm, 0) * runoff_coeff` where
`Pmm = PmmByBasin.get(basin) ?? r.precipitation_mm ?? 0`. -/
noncomputable def latFor (agg : List (String × ℝ))
    (basins : List (String × BasinParams)) (r : ObsRecord) : ℝ :=
  let basin := jsTrim r.basin_name
  let bp := alGet basin basins
  let runoffCoeff := (bp.bind (fun b => b.runoff_coeff)).getD 0.2
  let baseflow := (bp.bind (fun b => b.baseflow_cms)).getD 0
  let Pmm :=
    match alGet basin agg with
    | some v => v
    | none => r.precipitation_mm.getD 0
  baseflow + max Pmm 0 * runoffCoeff

/-- `lateralByCode` (lines 289-298). -/
noncomputable def buildLateral (now : List (String × ObsRecord))
    (currentInputs : List ObsRecord) (basins : List (String × BasinParams)) :
    List (String × ℝ) :=
  let agg := aggregateLatestPrecip currentInputs
  now.foldl (fun m p => alSet p.1 (latFor agg basins p.2) m) []

/-- The per-edge routing parameters stored in `segParams` (lines 301-324). -/
structure SegPrm where
  K : ℝ
  X : ℝ
  width : ℝ
  depth : ℝ
  rc_to : Option RatingCurve

/-- The parameterisation of one edge: defaults, floored slope,
`K = max(L / c, 3600)`, `X = 0.2`. -/
noncomputable def segPrmFor (e : Reach) (qUp : ℝ)
    (rcTo : Option RatingCurve) : SegPrm :=
  let width := e.width_m.getD 40
  let depth := e.depth_m.getD 3
  let n := e.n_mann.getD 0.035
  let slope := max (e.slope_m_m.getD 1e-4) 1e-6
  let L := e.length_km.getD 1 * 1000
  let c := celerity_mps qUp width depth slope n
  ⟨max (L / c) 3600, 0.2, width, depth, rcTo⟩

/-- `segParams` keyed by `keyEdge` (lines 301-324). -/
noncomputable def buildSegParams (graph : List Reach)
    (Qnow : List (String × ℝ)) (rating : List (String × RatingCurve)) :
    List (String × SegPrm) :=
  graph.foldl
    (fun m e =>
      alSet (keyEdge e.from_code e.to_code)
        (segPrmFor e ((alGet e.from_code Qnow).getD 10)
          (alGet e.to_code rating)) m)
    []

/-- Initial per-edge `{in, out}` state (lines 330-334). -/
def initPrev (graph : List Reach) (Qnow : List (String × ℝ)) :
    List (String × EdgeState) :=
  graph.foldl
    (fun m e =>
      alSet (keyEdge e.from_code e.to_code)
        ⟨(alGet e.from_code Qnow).getD 0, (alGet e.to_code Qnow).getD 0⟩ m)
    []

/-- Context fixed across the 72 simulated hours. -/
structure HCtx where
  now : List (String × ObsRecord)
  sett : List (String × Settings)
  rating : List (String × RatingCurve)
  lateral : List (String × ℝ)
  segParams : List (String × SegPrm)
  routeOrder : List Reach
  base : ℕ

/-- Mutable state of the 72-step loop. -/
structure LoopState where
  Qstate : List (String × ℝ)
  prevSeg : List (String × EdgeState)
  rows : List Row
  tableAcc : List (String × (Option ℝ × Option ℝ × Option ℝ))
  series : List (String × List SeriesPoint)

/-- `pushPoint` (lines 257-267): append one chart point for `code`. -/
noncomputable def pushPoint (ctx : HCtx) (code : String) (r : ObsRecord)
    (tAbs : ℕ) (stage : ℝ) (series : List (String × List SeriesPoint)) :
    List (String × List SeriesPoint) :=
  alUpdate code
    (fun cur =>
      cur.getD [] ++
        [⟨tAbs, tAbs % 24, round10 stage,
          orStr r.river_name
            (((alGet code ctx.sett).map (fun s => s.river_name)).getD ""),
          orStr r.station_name
            (((alGet code ctx.sett).map (fun s => s.station_name)).getD "")⟩])
    series

/-- One routing pass over all edges (lines 349-361): returns the updated
per-edge state and the accumulated inflow per downstream node. -/
noncomputable def routePass (ctx : HCtx) (Qstate : List (String × ℝ))
    (prev0 : List (String × EdgeState)) :
    List (String × EdgeState) × List (String × ℝ) :=
  ctx.routeOrder.foldl
    (fun acc e =>
      let key := keyEdge e.from_code e.to_code
      let prm := (alGet key ctx.segParams).getD ⟨0, 0, 0, 0, none⟩
      let qinUp := (alGet e.from_code Qstate).getD 0
      let prevEdge :=
        (alGet key acc.1).getD ⟨qinUp, (alGet e.to_code Qstate).getD 0⟩
      let qout := muskingumStep qinUp prevEdge prm.K prm.X 3600
      (alSet key ⟨qinUp, qout⟩ acc.1,
        alUpdate e.to_code (fun o => o.getD 0 + qout) acc.2))
    (prev0, [])

/-- The day index written by an end-of-day snapshot at absolute hour `tAbs`
(line 391): 0 for today, 1 for tomorrow, 2 otherwise. -/
def tblIdx (base tAbs : ℕ) : ℕ :=
  if tAbs / 24 = base / 24 then 0 else if tAbs / 24 = base / 24 + 1 then 1 else 2

/-- Write value `v` at day index `idx` of a station's daily triple. -/
def writeTbl (idx : ℕ) (v : ℝ) (cur : Option (Option ℝ × Option ℝ × Option ℝ)) :
    Option ℝ × Option ℝ × Option ℝ :=
  let c := cur.getD (none, none, none)
  if idx = 0 then (some v, c.2.1, c.2.2)
  else if idx = 1 then (c.1, some v, c.2.2)
  else (c.1, c.2.1, some v)

/-- The updated station discharge (line 368). -/
noncomputable def qNextFor (ctx : HCtx) (qin Qold : List (String × ℝ))
    (code : String) : ℝ :=
  max 0 (0.2 * (alGet code Qold).getD 0 + (alGet code qin).getD 0 +
    (alGet code ctx.lateral).getD 0)

/-- The stage a station reports at the end of a step (line 372). -/
noncomputable def stageFor (ctx : HCtx) (qin Qold : List (String × ℝ))
    (code : String) : ℝ :=
  qToStage_cm (qNextFor ctx qin Qold code) (alGet code ctx.rating)

/-- The hourly row emitted for one station at step `t` (lines 377-384). -/
noncomputable def rowFor (ctx : HCtx) (t : ℕ) (qin Qold : List (String × ℝ))
    (p : String × ObsRecord) : Row :=
  ⟨(ctx.base + t) / 24, ctx.base + t, p.1, p.2.station_name, p.2.river_name,
    round10 (stageFor ctx qin Qold p.1)⟩

/-- Component `j` of a station's daily triple. -/
def tripIdx (trip : Option ℝ × Option ℝ × Option ℝ) (j : ℕ) : Option ℝ :=
  if j = 0 then trip.1 else if j = 1 then trip.2.1 else trip.2.2

/-- Per-station part of one simulated hour (lines 363-398): update the
discharge, emit the hourly row and chart point, snapshot the daily table at
local hour 23. -/
noncomputable def emitOne (ctx : HCtx) (t : ℕ) (qin Qold : List (String × ℝ))
    (p : String × ObsRecord) (st : LoopState) : LoopState :=
  ⟨alSet p.1 (qNextFor ctx qin Qold p.1) st.Qstate, st.prevSeg,
    st.rows ++ [rowFor ctx t qin Qold p],
    (if (ctx.base + t) % 24 = 23 then
      alUpdate p.1 (writeTbl (tblIdx ctx.base (ctx.base + t))
        (round10 (stageFor ctx qin Qold p.1))) st.tableAcc
    else st.tableAcc),
    pushPoint ctx p.1 p.2 (ctx.base + t) (stageFor ctx qin Qold p.1) st.series⟩

/-- Fold `emitOne` over the stations of `nowByCode`. -/
noncomputable def stepEmit (ctx : HCtx) (t : ℕ) (qin Qold : List (String × ℝ)) :
    List (String × ObsRecord) → LoopState → LoopState
  | [], st => st
  | p :: rest, st => stepEmit ctx t qin Qold rest (emitOne ctx t qin Qold p st)

/-- One simulated hour `t` (lines 345-400). -/
noncomputable def hydroStep (ctx : HCtx) (t : ℕ) (st : LoopState) : LoopState :=
  let rp := routePass ctx st.Qstate st.prevSeg
  let st' := stepEmit ctx t rp.2 st.Qstate ctx.now
    ⟨st.Qstate, rp.1, st.rows, st.tableAcc, st.series⟩
  ⟨st'.Qstate, rp.1, st'.rows, st'.tableAcc, st'.series⟩

/-- The loop state after the first `k` simulated hours. -/
noncomputable def hydroRun (ctx : HCtx) (st0 : LoopState) : ℕ → LoopState
  | 0 => st0
  | k + 1 => hydroStep ctx k (hydroRun ctx st0 k)

/-- Initial chart points for the observed stages (lines 280-285). -/
noncomputable def initSeries (ctx : HCtx) : List (String × List SeriesPoint) :=
  ctx.now.foldl
    (fun ser p => pushPoint ctx p.1 p.2 ctx.base (p.2.water_level_cm.getD 0) ser)
    []

/-- The daily table row assembled for one station (lines 405-415). -/
def mkTableRow (settings : List Settings) (now : List (String × ObsRecord))
    (base : ℕ) (p : String × (Option ℝ × Option ℝ × Option ℝ)) : TableRow :=
  ⟨orStr (((alGet p.1 (rawSettingsByCode settings)).map
      (fun s => s.river_name)).getD "")
      (((alGet p.1 now).map (fun r => r.river_name)).getD ""),
    orStr (((alGet p.1 (rawSettingsByCode settings)).map
      (fun s => s.station_name)).getD "")
      (((alGet p.1 now).map (fun r => r.station_name)).getD ""),
    base / 24, p.2.1, p.2.2.1, p.2.2.2⟩

/-- The fixed context of the hydrologic branch, assembled once per run
(lines 275-343). -/
noncomputable def hydroCtx (currentInputs : List ObsRecord)
    (settings : List Settings) (aux : HydroAux) (base : ℕ) : HCtx :=
  let now := nowByCode currentInputs
  let graph := buildGraph aux.network
  ⟨now, settingsByCode settings, aux.rating,
    buildLateral now currentInputs aux.basins,
    buildSegParams graph (initQnow now aux.rating) aux.rating,
    topoOrDepthFirst graph, base⟩

/-- The initial loop state of the hydrologic branch (lines 278-334). -/
noncomputable def hydroInit (currentInputs : List ObsRecord)
    (settings : List Settings) (aux : HydroAux) (base : ℕ) : LoopState :=
  let now := nowByCode currentInputs
  let Qnow := initQnow now aux.rating
  ⟨Qnow, initPrev (buildGraph aux.network) Qnow, [], [],
    initSeries (hydroCtx currentInputs settings aux base)⟩

/-- The hydrologic branch of `forecastWaterLevels` (lines 269-430). -/
noncomputable def hydroForecast (currentInputs : List ObsRecord)
    (settings : List Settings) (aux : HydroAux) (base : ℕ) : ForecastOut :=
  let fin := hydroRun (hydroCtx currentInputs settings aux base)
    (hydroInit currentInputs settings aux base) 72
  ⟨sortOrd rowLt fin.rows,
    sortOrd tblLt (fin.tableAcc.map
      (mkTableRow settings (nowByCode currentInputs) base)),
    fin.series⟩

/-! #### Regression fallback branch (lines 433-513) -/

/-- The three daily predictions of the fallback (lines 449-465):
flat clamped stage without coefficients, decayed regression output with. -/
noncomputable def fallbackPreds (r : ObsRecord) (s : Option Settings)
    (coef : Option (List ℝ)) : ℝ × ℝ × ℝ :=
  let d := (s.bind (fun x => x.datum_offset_cm)).getD 0
  let lo := s.bind (fun x => x.min_level_cm)
  let hi := s.bind (fun x => x.max_level_cm)
  match coef with
  | none =>
      let wl := clampO (r.water_level_cm.getD 0 + d) lo hi
      (wl, wl, wl)
  | some c =>
      let p1 := dotList c (designVecObs r)
      let p2 := p1 * 0.98 + r.air_temp_c.getD 0 * 0.1
      let p3 := p2 * 0.98
      (clampO (p1 + d) lo hi, clampO (p2 + d) lo hi, clampO (p3 + d) lo hi)

/-- The fallback's 72 synthesized chart points for one station
(lines 490-501): each day's value replicated across its 24 hours. -/
noncomputable def fallbackSeries (sett : List (String × Settings))
    (base : ℕ) (p : String × ObsRecord) (preds : ℝ × ℝ × ℝ) :
    List SeriesPoint :=
  (List.range 72).map fun i =>
    ⟨base + i, (base + i) % 24,
      round10 (if i < 24 then preds.1 else if i < 48 then preds.2.1 else preds.2.2),
      orStr p.2.river_name
        (((alGet p.1 sett).map (fun s => s.river_name)).getD ""),
      orStr p.2.station_name
        (((alGet p.1 sett).map (fun s => s.station_name)).getD "")⟩

/-- The fallback branch of `forecastWaterLevels` (lines 433-513). -/
noncomputable def fallbackForecast (currentInputs : List ObsRecord)
    (settings : List Settings) (model : RegModel) (base : ℕ) : ForecastOut :=
  let now := nowByCode currentInputs
  let sett := settingsByCode settings
  let mid := base / 24 * 24
  let acc :=
    now.foldl
      (fun (acc : List Row × List TableRow ×
          List (String × List SeriesPoint)) p =>
        let s := alGet p.1 sett
        let preds := fallbackPreds p.2 s (alGet p.1 model.stations)
        let nm := orStr p.2.station_name
          ((s.map (fun x => x.station_name)).getD "")
        let rv := orStr p.2.river_name ((s.map (fun x => x.river_name)).getD "")
        (acc.1 ++
          (List.range 3).map (fun i =>
            ⟨base / 24 + i, mid + 24 * i + 23, p.1, nm, rv,
              round10 (if i = 0 then preds.1
                else if i = 1 then preds.2.1 else preds.2.2)⟩),
          acc.2.1 ++
            [⟨rv, nm, base / 24, some (round10 preds.1),
              some (round10 preds.2.1), some (round10 preds.2.2)⟩],
          alSet p.1 (fallbackSeries sett base p preds) acc.2.2))
      ([], [], [])
  ⟨sortOrd rowLt acc.1, sortOrd tblLt acc.2.1, acc.2.2⟩

/-- `forecastWaterLevels(currentInputs, settings, model, hydroAux)` with the
sampled clock `base` as explicit input: the hydrologic branch runs iff the
network, rating map and basin map are all non-empty. -/
noncomputable def forecastWaterLevels (currentInputs : List ObsRecord)
    (settings : List Settings) (model : RegModel) (aux : HydroAux)
    (base : ℕ) : ForecastOut :=
  if !aux.network.isEmpty && !aux.rating.isEmpty && !aux.basins.isEmpty then
    hydroForecast currentInputs settings aux base
  else fallbackForecast currentInputs settings model base

/-- The rating curve `{h0 = 0, a = 1, b = 1}` used as a concrete instance. -/
def rcUnit : RatingCurve := ⟨some 0, some 1, some 1⟩

/-- An observation with stage 50 cm and no other readings (claim C7). -/
def obs50 : ObsRecord :=
  ⟨"S", "", "", "", some 50, none, none, none, none, none, none⟩

/-- Settings with datum offset 0, range [0, 1000] (claim C7). -/
def set50 : Settings := ⟨"S", "", "", some 0, some 0, some 1000⟩

/-- An observation record with every reading null (claim C8). -/
def obsBlank : ObsRecord :=
  ⟨"S", "", "", "", none, none, none, none, none, none, none⟩

/-- Settings with datum offset 100 and no level bounds (claim C8). -/
def setD100 : Settings := ⟨"S", "", "", some 100, none, none⟩

/-- The non-null precipitation readings of the stations tagged with
(untrimmed) basin name `bn`, in input order. -/
def basinReadings (inputs : List ObsRecord) (bn : String) : List ℝ :=
  (inputs.filter (fun r => r.basin_name = bn)).filterMap
    (fun r => r.precipitation_mm)

/-- The precipitation value claim C1 prescribes for a station: the
station's own reading first, then the basin aggregate, then zero.  (The
code has the first two priorities the other way round.) -/
noncomputable def claimPrecipC1 (inputs : List ObsRecord) (r : ObsRecord) : ℝ :=
  match r.precipitation_mm with
  | some v => v
  | none =>
      match alGet (jsTrim r.basin_name) (aggregateLatestPrecip inputs) with
      | some v => v
      | none => 0

/-- The lateral inflow claim C1 prescribes for a station. -/
noncomputable def claimLateralC1 (inputs : List ObsRecord)
    (basins : List (String × BasinParams)) (r : ObsRecord) : ℝ :=
  let bp := alGet (jsTrim r.basin_name) basins
  (bp.bind (fun b => b.baseflow_cms)).getD 0 +
    max (claimPrecipC1 inputs r) 0 *
      (bp.bind (fun b => b.runoff_coeff)).getD 0.2

/-- Station X in basin Z with its own 2 mm precipitation reading. -/
def obsX : ObsRecord :=
  ⟨"X", "", "", "Z", none, some 2, none, none, none, none, none⟩

/-- Station Y in basin Z with a 5 mm precipitation reading. -/
def obsY : ObsRecord :=
  ⟨"Y", "", "", "Z", none, some 5, none, none, none, none, none⟩

/-- Basin Z with runoff coefficient 1 and baseflow 0. -/
def basinsC1 : List (String × BasinParams) := [("Z", ⟨some 1, some 0⟩)]

/-- A model with one trained station, used as a concrete instance. -/
def modelW : RegModel := ⟨none, [("S", [1, 2])]⟩

/-- Station P: observed, with a rating curve and a network edge. -/
def obsP : ObsRecord :=
  ⟨"P", "", "", "", some 10, none, none, none, none, none, none⟩

/-- Station Q: observed but absent from the network and rating data. -/
def obsQ : ObsRecord :=
  ⟨"Q", "", "", "", some 20, none, none, none, none, none, none⟩

/-- Auxiliaries for claim C2: the network references P (and a dangling
station C), the rating map covers P only, one basin exists; Q appears
nowhere. -/
def auxC2 : HydroAux :=
  ⟨[⟨"P", "C", none, none, none, none, none⟩], [("P", rcUnit)],
    [("Z", ⟨none, none⟩)]⟩

/-- The rating curve of the section-8 scenario: `{h0 = 0, a = 0.03, b = 1.6}`. -/
def rcC4 : RatingCurve := ⟨some 0, some 0.03, some 1.6⟩

/-- The single reach A→B of the scenario: 10 km, slope 0.001, n 0.035,
width 40 m, depth 3 m. -/
def reachAB : Reach := ⟨"A", "B", some 10, some 0.001, some 0.035, some 40, some 3⟩

/-- Station A with parametric stage and 5 mm precipitation, basin Z. -/
def obsA (stage : ℝ) : ObsRecord :=
  ⟨"A", "", "", "Z", some stage, some 5, none, none, none, none, none⟩

/-- Station B with 80 cm stage and 0 mm precipitation, basin Z. -/
def obsB : ObsRecord :=
  ⟨"B", "", "", "Z", some 80, some 0, none, none, none, none, none⟩

/-- The scenario auxiliaries: one reach, rating curves for both stations,
basin Z with runoff coefficient 0.2 and baseflow 0. -/
def auxC4 : HydroAux :=
  ⟨[reachAB], [("A", rcC4), ("B", rcC4)], [("Z", ⟨some 0.2, some 0⟩)]⟩

/-- The scenario's current observations, parametric in A's stage. -/
def inputsC4 (stage : ℝ) : List ObsRecord := [obsA stage, obsB]

/-- Station B's discharge after the first simulated hour of the scenario,
as a function of A's observed stage. -/
noncomputable def qB1 (stage : ℝ) : Option ℝ :=
  alGet "B" (hydroRun (hydroCtx (inputsC4 stage) [] auxC4 0)
    (hydroInit (inputsC4 stage) [] auxC4 0) 1).Qstate

/-- The K parameter of the scenario's single edge, before the 3600 floor is
resolved (the discharge argument is unused by `celerity_mps`). -/
noncomputable def kC4 (q : ℝ) : ℝ :=
  max (10 * 1000 / celerity_mps q 40 3 (max 0.001 1e-6) 0.035) 3600

/-- Acyclicity of a reach list: some ranking of the nodes strictly
increases along every edge (for finite graphs this is equivalent to the
absence of directed cycles). -/
def Acyclic (reaches : List Reach) : Prop :=
  ∃ rank : String → ℕ, ∀ e ∈ reaches, rank e.from_code < rank e.to_code

/-- `node` is justified relative to the already-emitted prefix: it is a
source, or some earlier edge ends in it. -/
def Justified (srcs : List String) (node : String)
    (pre : List (ℕ × Reach)) : Prop :=
  node ∈ srcs ∨ ∃ p ∈ pre, p.2.to_code = node

/-- Every emitted edge's from-node is justified by the prefix before it. -/
def GoodO (srcs : List String) (o : List (ℕ × Reach)) : Prop :=
  ∀ k (h : k < o.length), Justified srcs (o.get ⟨k, h⟩).2.from_code (o.take k)

/-- The DFS bookkeeping invariant: visited indices are exactly the emitted
ones, are distinct, and every emitted pair is a genuine indexed edge. -/
def SyncInv (all : List (ℕ × Reach)) (st : DState) : Prop :=
  st.used.Nodup ∧
  (∀ i, i ∈ st.used ↔ ∃ p ∈ st.ordered, p.1 = i) ∧
  (∀ p ∈ st.ordered, p ∈ all) ∧
  (st.ordered.map Prod.fst).Nodup

/-- Fuel is always at least one more than the number of unvisited edges. -/
def FuelInv (all : List (ℕ × Reach)) (fuel : ℕ) (st : DState) : Prop :=
  all.length + 1 ≤ fuel + st.used.length

/-- Every emitted edge's successors (edges out of its to-node) have been
visited. -/
def ClosedInv (all : List (ℕ × Reach)) (st : DState) : Prop :=
  ∀ p ∈ st.ordered, ∀ q ∈ all, q.2.from_code = p.2.to_code →
    q.1 ∈ st.used

/-- A two-edge acyclic graph a→b→c used as a concrete instance. -/
def edgeW1 : Reach := ⟨"a", "b", none, none, none, none, none⟩

/-- Second edge of the concrete acyclic graph. -/
def edgeW2 : Reach := ⟨"b", "c", none, none, none, none, none⟩

/-! ## Theorems -/

/-! ### Association-list lemmas -/

theorem alGet_alUpdate_self {K V : Type} [DecidableEq K] (k : K)
    (f : Option V → V) (m : List (K × V)) :
    alGet k (alUpdate k f m) = some (f (alGet k m)) := by
  induction m with
  | nil => simp [alGet, alUpdate]
  | cons p rest ih =>
      by_cases h : p.1 = k
      · simp [alGet, alUpdate, h]
      · simp [alGet, alUpdate, h, ih]

theorem alGet_alUpdate_ne {K V : Type} [DecidableEq K] {c k : K}
    (f : Option V → V) (m : List (K × V)) (h : c ≠ k) :
    alGet c (alUpdate k f m) = alGet c m := by
  have h' : ¬(k = c) := fun hk => h hk.symm
  induction m with
  | nil => simp [alGet, alUpdate, h']
  | cons p rest ih =>
      by_cases hp : p.1 = k
      · simp [alGet, alUpdate, hp, h']
      · by_cases hc : p.1 = c <;> simp [alGet, alUpdate, hp, hc, ih, h]

theorem alGet_alSet_self {K V : Type} [DecidableEq K] (k : K) (v : V)
    (m : List (K × V)) : alGet k (alSet k v m) = some v :=
  alGet_alUpdate_self k _ m

theorem alGet_alSet_ne {K V : Type} [DecidableEq K] {c k : K} (v : V)
    (m : List (K × V)) (h : c ≠ k) : alGet c (alSet k v m) = alGet c m :=
  alGet_alUpdate_ne _ m h

theorem alGet_eq_none_iff {K V : Type} [DecidableEq K] (c : K)
    (m : List (K × V)) : alGet c m = none ↔ c ∉ m.map Prod.fst := by
  induction m with
  | nil => simp [alGet]
  | cons p rest ih =>
      simp only [alGet, List.map_cons, List.mem_cons]
      by_cases h : p.1 = c
      · simp [h]
      · have h' : ¬(c = p.1) := fun hk => h hk.symm
        simp [h, h', ih]

theorem alUpdate_keys {K V : Type} [DecidableEq K] (k : K) (f : Option V → V)
    (m : List (K × V)) :
    (alUpdate k f m).map Prod.fst =
      if k ∈ m.map Prod.fst then m.map Prod.fst else m.map Prod.fst ++ [k] := by
  induction m with
  | nil => simp [alUpdate]
  | cons p rest ih =>
      by_cases h : p.1 = k
      · simp [alUpdate, h]
      · by_cases hk : k ∈ rest.map Prod.fst <;>
          simp [alUpdate, h, ih, hk, Ne.symm h]

theorem alUpdate_keys_nodup {K V : Type} [DecidableEq K] (k : K)
    (f : Option V → V) {m : List (K × V)} (h : (m.map Prod.fst).Nodup) :
    ((alUpdate k f m).map Prod.fst).Nodup := by
  rw [alUpdate_keys]
  by_cases hk : k ∈ m.map Prod.fst <;> simp [hk, h, List.Nodup.append, h]

theorem alSet_keys_nodup {K V : Type} [DecidableEq K] (k : K) (v : V)
    {m : List (K × V)} (h : (m.map Prod.fst).Nodup) :
    ((alSet k v m).map Prod.fst).Nodup :=
  alUpdate_keys_nodup k _ h

/-- Claim C3: for every rating curve with `a > 0` and `b > 0` and every
stage `h ≥ h0`, converting stage to discharge and back returns `h`
exactly (so in particular within rounding tolerance). -/
theorem C3_stage_discharge_roundtrip (rc : RatingCurve) (h : ℝ)
    (ha : 0 < rc.a.getD 0.03) (hb : 0 < rc.b.getD 1.6)
    (hh : rc.h0_cm.getD 0 ≤ h) :
    qToStage_cm (stageToQ_cm (some h) (some rc)) (some rc) = h := by
  have hsub : (0 : ℝ) ≤ h - rc.h0_cm.getD 0 := sub_nonneg.mpr hh
  have hq : 0 ≤ rc.a.getD 0.03 * (h - rc.h0_cm.getD 0) ^ (rc.b.getD 1.6) :=
    mul_nonneg ha.le (Real.rpow_nonneg hsub _)
  simp only [stageToQ_cm, qToStage_cm, Option.getD_some]
  rw [if_neg (by push_neg; exact ⟨ha, hb⟩)]
  rw [max_eq_left hsub, max_eq_left hq, mul_div_cancel_left₀ _ ha.ne',
    ← Real.rpow_mul hsub, mul_one_div_cancel hb.ne', Real.rpow_one]
  ring

/-- Witness for C3 at the concrete curve `{h0 = 0, a = 1, b = 1}`, `h = 2`. -/
theorem C3_stage_discharge_roundtrip_witness :
    qToStage_cm (stageToQ_cm (some 2) (some rcUnit)) (some rcUnit) = 2 :=
  C3_stage_discharge_roundtrip rcUnit 2 (by norm_num [rcUnit])
    (by norm_num [rcUnit]) (by norm_num [rcUnit])

/-- Claim C9: the forecast orchestrator is deterministic — two runs on
identical inputs (current observations, settings, persisted model,
hydrologic auxiliaries, and the sampled clock, which the embedding makes an
explicit input) produce identical output. -/
theorem C9_forecast_deterministic (ci : List ObsRecord) (s : List Settings)
    (m : RegModel) (aux : HydroAux) (base : ℕ) :
    forecastWaterLevels ci s m aux base = forecastWaterLevels ci s m aux base :=
  rfl

/-- Claim C10: every edge parameterization the orchestrator produces has
`K ≥ 3600` and `X = 0.2`, the Muskingum denominator `K - K·X + 0.5·dt` is
strictly positive (no division by zero), and `muskingumStep` always returns
a (finite, in `ℝ`) value `≥ 0`. -/
theorem C10_muskingum_denominator_safe (e : Reach) (qUp : ℝ)
    (rcTo : Option RatingCurve) :
    3600 ≤ (segPrmFor e qUp rcTo).K ∧ (segPrmFor e qUp rcTo).X = 0.2 ∧
    0 < (segPrmFor e qUp rcTo).K -
        (segPrmFor e qUp rcTo).K * (segPrmFor e qUp rcTo).X + 0.5 * 3600 ∧
    ∀ q pin pout : ℝ,
      0 ≤ muskingumStep q ⟨pin, pout⟩ (segPrmFor e qUp rcTo).K
        (segPrmFor e qUp rcTo).X 3600 := by
  have hK : 3600 ≤ (segPrmFor e qUp rcTo).K := by
    simp only [segPrmFor]
    exact le_max_right _ _
  have hX : (segPrmFor e qUp rcTo).X = 0.2 := by simp [segPrmFor]
  refine ⟨hK, hX, ?_, fun q pin pout => le_max_right _ 0⟩
  rw [hX]
  nlinarith [hK]

/-- Claim C7: in the regression fallback, a station without trained
coefficients gets all three daily predictions equal to
`clamp(observed stage + datum_offset, min_level, max_level)`; in particular
with datum 0, range [0, 1000] and observed stage 50 all three equal 50. -/
theorem C7_fallback_without_coefficients (r : ObsRecord) (s : Option Settings) :
    fallbackPreds r s none =
      (clampO (r.water_level_cm.getD 0 +
          (s.bind (fun x => x.datum_offset_cm)).getD 0)
        (s.bind (fun x => x.min_level_cm)) (s.bind (fun x => x.max_level_cm)),
       clampO (r.water_level_cm.getD 0 +
          (s.bind (fun x => x.datum_offset_cm)).getD 0)
        (s.bind (fun x => x.min_level_cm)) (s.bind (fun x => x.max_level_cm)),
       clampO (r.water_level_cm.getD 0 +
          (s.bind (fun x => x.datum_offset_cm)).getD 0)
        (s.bind (fun x => x.min_level_cm)) (s.bind (fun x => x.max_level_cm))) ∧
    fallbackPreds obs50 (some set50) none = (50, 50, 50) := by
  constructor
  · rfl
  · norm_num [fallbackPreds, clampO, obs50, set50]

/-- Claim C8 fails on the code: with coefficients `[10]`, all readings
null, datum offset 100 and no bounds, the code's day+2 prediction is
109.8, while the claimed formula `clamp(0.98·day+1 + 0.1·temp + datum)`
gives 207.8 (the code decays the unclamped regression output, not the
day+1 prediction). -/
theorem C8_counterexample :
    (fallbackPreds obsBlank (some setD100) (some [10])).2.1 ≠
      clampO (0.98 * (fallbackPreds obsBlank (some setD100) (some [10])).1 +
        0.1 * obsBlank.air_temp_c.getD 0 + setD100.datum_offset_cm.getD 0)
        setD100.min_level_cm setD100.max_level_cm := by
  norm_num [fallbackPreds, clampO, dotList, designVecObs, obsBlank, setD100]

/-- Claim C8 (amended): with trained coefficients, the day+2 prediction is
`clamp(0.98·raw1 + 0.1·air_temp + datum, min, max)` where
`raw1 = dot(coef, features)` is the unclamped regression output (not the
day+1 prediction), and the day+3 prediction is
`clamp(0.98·raw2 + datum, min, max)` where `raw2 = 0.98·raw1 + 0.1·air_temp`
— the datum offset is applied once inside the clamp for every day,
including day+3. -/
theorem C8_fallback_decay (r : ObsRecord) (s : Option Settings) (cf : List ℝ) :
    (fallbackPreds r s (some cf)).2.1 =
      clampO (0.98 * dotList cf (designVecObs r) + 0.1 * r.air_temp_c.getD 0 +
          (s.bind (fun x => x.datum_offset_cm)).getD 0)
        (s.bind (fun x => x.min_level_cm))
        (s.bind (fun x => x.max_level_cm)) ∧
    (fallbackPreds r s (some cf)).2.2 =
      clampO (0.98 * (0.98 * dotList cf (designVecObs r) +
            0.1 * r.air_temp_c.getD 0) +
          (s.bind (fun x => x.datum_offset_cm)).getD 0)
        (s.bind (fun x => x.min_level_cm))
        (s.bind (fun x => x.max_level_cm)) := by
  simp only [fallbackPreds]
  constructor <;> ring_nf

/-! ### Map-building folds -/

theorem alGet_foldl_alSet_aux {K V W : Type} [DecidableEq K] (g : K → V → W) :
    ∀ (l : List (K × V)) (acc : List (K × W)) (c : K),
      (l.map Prod.fst).Nodup →
      alGet c (l.foldl (fun m p => alSet p.1 (g p.1 p.2) m) acc) =
        Option.elim (alGet c l) (alGet c acc) (fun v => some (g c v)) := by
  intro l
  induction l with
  | nil => intro acc c _; simp [alGet]
  | cons p rest ih =>
      intro acc c hnd
      simp only [List.map_cons, List.nodup_cons] at hnd
      rw [List.foldl_cons, ih _ c hnd.2]
      by_cases hc : p.1 = c
      · have hrest : alGet c rest = none := by
          rw [alGet_eq_none_iff]; rw [hc] at hnd; exact hnd.1
        rw [hrest, ← hc]
        simp [alGet, alGet_alSet_self]
      · have hne : c ≠ p.1 := fun hk => hc hk.symm
        cases halG : alGet c rest <;>
          simp [alGet, hc, halG, alGet_alSet_ne _ _ hne]

theorem nowByCode_keys_nodup (inputs : List ObsRecord) :
    ((nowByCode inputs).map Prod.fst).Nodup := by
  suffices h : ∀ (l : List ObsRecord) (acc : List (String × ObsRecord)),
      ((acc.map Prod.fst).Nodup) →
      (((l.foldl (fun m r =>
        if jsTrim r.station_code = "" then m
      else alSet (jsTrim r.station_code) r m)
        acc).map Prod.fst).Nodup) by
    exact h inputs [] (by simp)
  intro l
  induction l with
  | nil => intro acc h; simpa using h
  | cons r rest ih =>
      intro acc h
      rw [List.foldl_cons]
      by_cases hr : jsTrim r.station_code = ""
      · simpa [hr] using ih acc h
      · simpa [hr] using ih _ (alSet_keys_nodup _ _ h)

theorem buildLateral_get (inputs : List ObsRecord)
    (basins : List (String × BasinParams)) (c : String) :
    alGet c (buildLateral (nowByCode inputs) inputs basins) =
      (alGet c (nowByCode inputs)).map
        (latFor (aggregateLatestPrecip inputs) basins) := by
  rw [buildLateral, alGet_foldl_alSet_aux
    (fun _ r => latFor (aggregateLatestPrecip inputs) basins r)
    (nowByCode inputs) [] c (nowByCode_keys_nodup inputs)]
  cases h : alGet c (nowByCode inputs) <;> simp [alGet, h]

/-! ### Precipitation aggregation computes the basin maximum -/

theorem agg_sound_aux :
    ∀ (inputs : List ObsRecord) (m : List (String × ℝ))
      (pre : List ObsRecord) (bn : String), bn ≠ "" →
      (∀ w, alGet bn m = some w →
        w ∈ basinReadings pre bn ∧ ∀ x ∈ basinReadings pre bn, x ≤ w) →
      (alGet bn m = none → basinReadings pre bn = []) →
      (∀ w, alGet bn (inputs.foldl aggUpd m) = some w →
        w ∈ basinReadings (pre ++ inputs) bn ∧
          ∀ x ∈ basinReadings (pre ++ inputs) bn, x ≤ w) ∧
      (alGet bn (inputs.foldl aggUpd m) = none →
        basinReadings (pre ++ inputs) bn = []) := by
  intro inputs
  induction inputs with
  | nil => intro m pre bn _ H1 H2; simpa using ⟨H1, H2⟩
  | cons r rest ih =>
      intro m pre bn hbn H1 H2
      have hsplit : pre ++ r :: rest = (pre ++ [r]) ++ rest := by simp
      rw [hsplit, List.foldl_cons]
      by_cases hb : r.basin_name = ""
      · have hnotbn : ¬(r.basin_name = bn) := by
          rw [hb]; exact fun h => hbn h.symm
        have hread : basinReadings (pre ++ [r]) bn = basinReadings pre bn := by
          simp [basinReadings, List.filter_append, hnotbn]
        refine ih (aggUpd m r) (pre ++ [r]) bn hbn ?_ ?_
        · rw [hread]; simpa [aggUpd, hb] using H1
        · rw [hread]; simpa [aggUpd, hb] using H2
      · cases hp : r.precipitation_mm with
        | none =>
            have hread : basinReadings (pre ++ [r]) bn = basinReadings pre bn := by
              by_cases hrbn : r.basin_name = bn <;>
                simp [basinReadings, List.filter_append, hrbn, hp]
            refine ih (aggUpd m r) (pre ++ [r]) bn hbn ?_ ?_
            · rw [hread]; simpa [aggUpd, hb, hp] using H1
            · rw [hread]; simpa [aggUpd, hb, hp] using H2
        | some v =>
            by_cases hrbn : r.basin_name = bn
            · have hread : basinReadings (pre ++ [r]) bn =
                  basinReadings pre bn ++ [v] := by
                simp [basinReadings, List.filter_append, hrbn, hp]
              have hm' : alGet bn (aggUpd m r) =
                  some (Option.elim (alGet bn m) v (fun p => max p v)) := by
                rw [aggUpd]
                simp only [hb, if_false, hp]
                rw [hrbn, alGet_alUpdate_self]
                cases alGet bn m <;> rfl
              refine ih (aggUpd m r) (pre ++ [r]) bn hbn ?_ ?_
              · intro w hw
                rw [hm'] at hw
                cases hget : alGet bn m with
                | none =>
                    rw [hget] at hw
                    simp only [Option.elim] at hw
                    rw [hread, H2 hget]
                    simp [← Option.some_inj.mp hw]
                | some p =>
                    rw [hget] at hw
                    simp only [Option.elim] at hw
                    have hw' : w = max p v := (Option.some_inj.mp hw).symm
                    rcases H1 p hget with ⟨hmem, hbound⟩
                    subst hw'
                    constructor
                    · rw [hread]
                      rcases max_choice p v with h | h <;> rw [h]
                      · exact List.mem_append_left _ hmem
                      · simp
                    · intro x hx
                      rw [hread] at hx
                      rcases List.mem_append.mp hx with h | h
                      · exact le_trans (hbound x h) (le_max_left _ _)
                      · simp at h; rw [h]; exact le_max_right _ _
              · intro hnone; rw [hm'] at hnone; cases hnone
            · have hread : basinReadings (pre ++ [r]) bn =
                  basinReadings pre bn := by
                simp [basinReadings, List.filter_append, hrbn]
              have hm' : alGet bn (aggUpd m r) = alGet bn m := by
                rw [aggUpd]
                simp only [hb, if_false, hp]
                exact alGet_alUpdate_ne _ m (fun h => hrbn h.symm)
              refine ih (aggUpd m r) (pre ++ [r]) bn hbn ?_ ?_
              · rw [hread, hm']; exact H1
              · rw [hread, hm']; exact H2

theorem agg_is_basin_max (inputs : List ObsRecord) (bn : String)
    (hbn : bn ≠ "") :
    (∀ w, alGet bn (aggregateLatestPrecip inputs) = some w →
      w ∈ basinReadings inputs bn ∧ ∀ x ∈ basinReadings inputs bn, x ≤ w) ∧
    (alGet bn (aggregateLatestPrecip inputs) = none →
      basinReadings inputs bn = []) := by
  have h := agg_sound_aux inputs [] [] bn hbn
    (by intro w hw; cases hw) (by intro _; rfl)
  simpa [aggregateLatestPrecip] using h

/-- Claim C1 fails on the code: station X (own reading 2 mm) shares basin Z
with station Y (5 mm); the code computes lateral inflow from the basin
maximum 5 (the aggregate takes priority), while the claim's priority
(own reading first) prescribes 2. -/
theorem C1_counterexample :
    alGet "X" (buildLateral (nowByCode [obsX, obsY]) [obsX, obsY] basinsC1) ≠
      some (claimLateralC1 [obsX, obsY] basinsC1 obsX) := by
  have htrim : jsTrim "Z" = "Z" := by decide
  have htx : jsTrim "X" = "X" := by decide
  have hty : jsTrim "Y" = "Y" := by decide
  have hL : alGet "X"
      (buildLateral (nowByCode [obsX, obsY]) [obsX, obsY] basinsC1) =
      some (0 + max (max 2 5) 0 * 1) := by
    simp [buildLateral, latFor, nowByCode, aggregateLatestPrecip, aggUpd,
      alSet, alUpdate, alGet, obsX, obsY, basinsC1, htrim, htx, hty]
  have hR : claimLateralC1 [obsX, obsY] basinsC1 obsX =
      0 + max 2 0 * 1 := by
    simp [claimLateralC1, claimPrecipC1, alGet, obsX, basinsC1, htrim]
  rw [hL, hR]
  have h5 : max (max (2 : ℝ) 5) 0 = 5 := by
    rw [max_eq_right (by norm_num : (2 : ℝ) ≤ 5)]
    exact max_eq_left (by norm_num)
  have h2 : max (2 : ℝ) 0 = 2 := max_eq_left (by norm_num)
  rw [h5, h2]
  intro h
  have := Option.some_inj.mp h
  norm_num at this

/-- Claim C1 (amended): the code's precipitation priority is the reverse of
the claim's first two steps — (1) the basin-aggregated value under the
station's trimmed basin name (which `agg_is_basin_max` below shows is the
maximum reading among stations tagged with that basin), (2) otherwise the
station's own current reading, (3) otherwise zero; the lateral inflow is
then `baseflow(basin) + max(Pmm, 0) * runoff_coeff(basin)`. -/
theorem C1_lateral_inflow (inputs : List ObsRecord)
    (basins : List (String × BasinParams)) (c : String) (r : ObsRecord)
    (hr : alGet c (nowByCode inputs) = some r) :
    alGet c (buildLateral (nowByCode inputs) inputs basins) =
      some
        (((alGet (jsTrim r.basin_name) basins).bind
            (fun b => b.baseflow_cms)).getD 0 +
          max ((alGet (jsTrim r.basin_name)
              (aggregateLatestPrecip inputs)).getD
            (r.precipitation_mm.getD 0)) 0 *
          ((alGet (jsTrim r.basin_name) basins).bind
            (fun b => b.runoff_coeff)).getD 0.2) ∧
    (∀ bn w, bn ≠ "" → alGet bn (aggregateLatestPrecip inputs) = some w →
      w ∈ basinReadings inputs bn ∧ ∀ x ∈ basinReadings inputs bn, x ≤ w) := by
  constructor
  · rw [buildLateral_get, hr, Option.map_some']
    have hP : (match alGet (jsTrim r.basin_name) (aggregateLatestPrecip inputs) with
        | some v => v
        | none => r.precipitation_mm.getD 0) =
        (alGet (jsTrim r.basin_name) (aggregateLatestPrecip inputs)).getD
          (r.precipitation_mm.getD 0) := by
      cases alGet (jsTrim r.basin_name) (aggregateLatestPrecip inputs) <;> rfl
    rw [latFor, hP]
  · intro bn w hbn hw
    exact (agg_is_basin_max inputs bn hbn).1 w hw

/-- Witness for C1 (amended) at the two-station input of the
counterexample: station X's lateral inflow is the formula value, and the
basin-Z aggregate 5 is the maximum of the readings `[2, 5]`. -/
theorem C1_lateral_inflow_witness :
    alGet "X" (nowByCode [obsX, obsY]) = some obsX ∧
    ("Z" : String) ≠ "" ∧
    alGet "Z" (aggregateLatestPrecip [obsX, obsY]) = some (max 2 5) ∧
    alGet "X" (buildLateral (nowByCode [obsX, obsY]) [obsX, obsY] basinsC1) =
      some
        (((alGet (jsTrim obsX.basin_name) basinsC1).bind
            (fun b => b.baseflow_cms)).getD 0 +
          max ((alGet (jsTrim obsX.basin_name)
              (aggregateLatestPrecip [obsX, obsY])).getD
            (obsX.precipitation_mm.getD 0)) 0 *
          ((alGet (jsTrim obsX.basin_name) basinsC1).bind
            (fun b => b.runoff_coeff)).getD 0.2) ∧
    max (2 : ℝ) 5 ∈ basinReadings [obsX, obsY] "Z" ∧
    ∀ x ∈ basinReadings [obsX, obsY] "Z", x ≤ max 2 5 := by
  have htx : jsTrim "X" = "X" := by decide
  have hty : jsTrim "Y" = "Y" := by decide
  have hget : alGet "X" (nowByCode [obsX, obsY]) = some obsX := by
    simp [nowByCode, alSet, alUpdate, alGet, obsX, obsY, htx, hty]
  have hagg : alGet "Z" (aggregateLatestPrecip [obsX, obsY]) =
      some (max 2 5) := by
    simp [aggregateLatestPrecip, aggUpd, alUpdate, alGet, obsX, obsY]
  have h := C1_lateral_inflow [obsX, obsY] basinsC1 "X" obsX hget
  exact ⟨hget, by simp, hagg, h.1,
    (h.2 "Z" (max 2 5) (by simp) hagg).1, (h.2 "Z" (max 2 5) (by simp) hagg).2⟩

/-! ### Training lemmas (claim C5) -/

theorem alGet_of_mem_nodup {K V : Type} [DecidableEq K] {k : K} {v : V}
    {l : List (K × V)} (hnd : (l.map Prod.fst).Nodup) (hm : (k, v) ∈ l) :
    alGet k l = some v := by
  induction l with
  | nil => cases hm
  | cons p rest ih =>
      simp only [List.map_cons, List.nodup_cons] at hnd
      rcases List.mem_cons.mp hm with h | h
      · rw [← h]; simp [alGet]
      · have hk : k ∈ rest.map Prod.fst :=
          List.mem_map.mpr ⟨(k, v), h, rfl⟩
        have hne : ¬(p.1 = k) := fun he => hnd.1 (he ▸ hk)
        simp [alGet, hne, ih hnd.2 h]

theorem byStationMap_keys_nodup (hist : List HistRaw) :
    ((byStationMap hist).map Prod.fst).Nodup := by
  suffices h : ∀ (l : List HistRaw) (acc : List (String × List HistRaw)),
      ((acc.map Prod.fst).Nodup) → (((l.foldl bsStep acc).map Prod.fst).Nodup) by
    exact h hist [] (by simp)
  intro l
  induction l with
  | nil => intro acc h; simpa using h
  | cons r rest ih =>
      intro acc h
      rw [List.foldl_cons]
      by_cases hr : jsTrim r.station_code = ""
      · simpa [bsStep, hr] using ih acc h
      · exact ih _ (by simpa [bsStep, hr] using alUpdate_keys_nodup _ _ h)

theorem byStationMap_keys_ne_empty (hist : List HistRaw) :
    ∀ p ∈ byStationMap hist, p.1 ≠ "" := by
  suffices h : ∀ (l : List HistRaw) (acc : List (String × List HistRaw)),
      (∀ p ∈ acc, p.1 ≠ "") → ∀ p ∈ l.foldl bsStep acc, p.1 ≠ "" by
    exact h hist [] (by simp)
  intro l
  induction l with
  | nil => intro acc h; simpa using h
  | cons r rest ih =>
      intro acc h
      rw [List.foldl_cons]
      refine ih _ ?_
      rw [bsStep]
      by_cases hr : jsTrim r.station_code = ""
      · simpa [hr] using h
      · simp only [hr, if_false]
        intro p hp
        have := alUpdate_keys (jsTrim r.station_code)
          (fun cur => cur.getD [] ++ [normHist r]) acc
        have hkeys : p.1 ∈ (alUpdate (jsTrim r.station_code)
            (fun cur => cur.getD [] ++ [normHist r]) acc).map Prod.fst :=
          List.mem_map.mpr ⟨p, hp, rfl⟩
        rw [this] at hkeys
        by_cases hin : jsTrim r.station_code ∈ acc.map Prod.fst
        · rw [if_pos hin] at hkeys
          rcases List.mem_map.mp hkeys with ⟨q, hq, hqe⟩
          exact hqe ▸ h q hq
        · rw [if_neg hin] at hkeys
          rcases List.mem_append.mp hkeys with hk | hk
          · rcases List.mem_map.mp hk with ⟨q, hq, hqe⟩
            exact hqe ▸ h q hq
          · simp at hk; rw [hk]; exact hr

theorem stationRowsOf_append (pre : List HistRaw) (r : HistRaw)
    (code : String) :
    stationRowsOf (pre ++ [r]) code =
      stationRowsOf pre code ++
        (if jsTrim r.station_code = code then [normHist r] else []) := by
  by_cases h : jsTrim r.station_code = code <;>
    simp [stationRowsOf, List.filter_append, h]

theorem byStationMap_get (hist : List HistRaw) (code : String)
    (hc : code ≠ "") :
    (alGet code (byStationMap hist)).getD [] = stationRowsOf hist code := by
  suffices h : ∀ (l pre : List HistRaw) (m : List (String × List HistRaw)),
      ((alGet code m).getD [] = stationRowsOf pre code) →
      ((alGet code (l.foldl bsStep m)).getD [] =
        stationRowsOf (pre ++ l) code) by
    have := h hist [] [] (by simp [alGet, stationRowsOf])
    simpa [byStationMap] using this
  intro l
  induction l with
  | nil => intro pre m h; simpa using h
  | cons r rest ih =>
      intro pre m h
      have hsplit : pre ++ r :: rest = (pre ++ [r]) ++ rest := by simp
      rw [hsplit, List.foldl_cons]
      refine ih (pre ++ [r]) (bsStep m r) ?_
      rw [stationRowsOf_append, bsStep]
      by_cases hr : jsTrim r.station_code = ""
      · have hne : ¬(jsTrim r.station_code = code) := fun he => hc (he ▸ hr)
        have hc' : ¬("" = code) := fun he => hc he.symm
        simp [hr, hne, h, hc']
      · by_cases heq : jsTrim r.station_code = code
        · rw [if_neg hr, heq, alGet_alUpdate_self]
          simp [h, heq]
        · rw [if_neg hr,
            alGet_alUpdate_ne _ m (fun he => heq he.symm)]
          simp [h, heq]

theorem trainFold_skip (code : String) :
    ∀ (entries : List (String × List HistRaw))
      (acc : List (String × List ℝ)),
      (∀ p ∈ entries, p.1 = code → (trainPairs p.2).length < 5) →
      alGet code (entries.foldl trainUpd acc) = alGet code acc := by
  intro entries
  induction entries with
  | nil => intro acc _; rfl
  | cons p rest ih =>
      intro acc h
      rw [List.foldl_cons]
      have hrest : ∀ q ∈ rest, q.1 = code → (trainPairs q.2).length < 5 :=
        fun q hq => h q (List.mem_cons_of_mem _ hq)
      by_cases h5 : (trainPairs p.2).length < 5
      · rw [ih _ hrest]
        simp [trainUpd, h5]
      · have hne : p.1 ≠ code := fun he =>
          h5 (h p (List.mem_cons_self _ _) he)
        rw [ih _ hrest]
        simp only [trainUpd, h5, if_false]
        exact alGet_alSet_ne _ acc (fun he => hne he.symm)

/-- Claim C5: a station with fewer than 5 valid (today, tomorrow) training
pairs keeps its previous coefficient entry untouched, while the model's
global `trainedAt` timestamp is set unconditionally at the end of the run. -/
theorem C5_training_skip_keeps_coefficients (hist : List HistRaw)
    (model : RegModel) (now : ℕ) (code : String)
    (h5 : (trainPairs (stationRowsOf hist code)).length < 5) :
    alGet code (trainFromRows hist model now).stations =
      alGet code model.stations ∧
    (trainFromRows hist model now).trainedAt = some now := by
  refine ⟨?_, rfl⟩
  rw [trainFromRows]
  refine trainFold_skip code (byStationMap hist) model.stations ?_
  intro p hp he
  have hne : p.1 ≠ "" := byStationMap_keys_ne_empty hist p hp
  have hget : alGet p.1 (byStationMap hist) = some p.2 :=
    alGet_of_mem_nodup (byStationMap_keys_nodup hist)
      (by rw [← Prod.mk.eta (p := p)] at hp; exact hp)
  have : p.2 = stationRowsOf hist code := by
    have := byStationMap_get hist p.1 hne
    rw [hget] at this
    simpa [he] using this
  rw [this]
  exact h5

/-- Witness for C5: an empty history leaves station S's coefficients
`[1, 2]` untouched and still stamps `trainedAt`. -/
theorem C5_training_skip_keeps_coefficients_witness :
    (trainPairs (stationRowsOf [] "S")).length < 5 ∧
    alGet "S" (trainFromRows [] modelW 7).stations =
      alGet "S" modelW.stations ∧
    (trainFromRows [] modelW 7).trainedAt = some 7 := by
  have h5 : (trainPairs (stationRowsOf [] "S")).length < 5 := by
    norm_num [trainPairs, stationRowsOf, sortOrd, consecPairs]
  exact ⟨h5, (C5_training_skip_keeps_coefficients [] modelW 7 "S" h5).1,
    (C5_training_skip_keeps_coefficients [] modelW 7 "S" h5).2⟩

/-! ### Hydrologic-loop bookkeeping lemmas (claims C2, C4) -/

theorem insertOrd_perm {α : Type} (ltB : α → α → Bool) (x : α) :
    ∀ l : List α, (insertOrd ltB x l).Perm (x :: l) := by
  intro l
  induction l with
  | nil => simp [insertOrd]
  | cons y ys ih =>
      rw [insertOrd]
      by_cases h : ltB y x
      · simp only [h, if_true]
        exact (ih.cons y).trans (List.Perm.swap x y ys)
      · simp [h]

theorem sortOrd_perm {α : Type} (ltB : α → α → Bool) :
    ∀ l : List α, (sortOrd ltB l).Perm l := by
  intro l
  induction l with
  | nil => simp [sortOrd]
  | cons x xs ih =>
      rw [sortOrd]
      exact (insertOrd_perm ltB x _).trans (ih.cons x)

theorem stepEmit_rows (ctx : HCtx) (t : ℕ) (qin Qold : List (String × ℝ)) :
    ∀ (l : List (String × ObsRecord)) (st : LoopState),
      (stepEmit ctx t qin Qold l st).rows =
        st.rows ++ l.map (rowFor ctx t qin Qold) := by
  intro l
  induction l with
  | nil => intro st; simp [stepEmit]
  | cons p rest ih =>
      intro st
      rw [stepEmit, ih]
      simp [emitOne]

theorem hydroStep_rows (ctx : HCtx) (t : ℕ) (st : LoopState) :
    (hydroStep ctx t st).rows =
      st.rows ++ ctx.now.map
        (rowFor ctx t (routePass ctx st.Qstate st.prevSeg).2 st.Qstate) := by
  rw [hydroStep, stepEmit_rows]

theorem hydroRun_rows_count (ctx : HCtx) (st0 : LoopState) (c : String) :
    ∀ k : ℕ,
      ((hydroRun ctx st0 k).rows.countP
          (fun row => decide (row.station_code = c))) =
        st0.rows.countP (fun row => decide (row.station_code = c)) +
          k * ctx.now.countP (fun p => decide (p.1 = c)) := by
  intro k
  induction k with
  | zero => simp [hydroRun]
  | succ k ih =>
      rw [hydroRun, hydroStep_rows, List.countP_append, ih, List.countP_map]
      have : ∀ qin Qold,
          (ctx.now.countP ((fun row => decide (row.station_code = c)) ∘
            rowFor ctx k qin Qold)) =
          ctx.now.countP (fun p => decide (p.1 = c)) := by
        intro qin Qold
        apply List.countP_congr
        intro p _
        simp [rowFor, Function.comp]
      rw [this]
      ring

theorem hydroRun_rows_all (ctx : HCtx) (st0 : LoopState) (P : Row → Prop)
    (h0 : ∀ row ∈ st0.rows, P row)
    (hstep : ∀ t qin Qold p, p ∈ ctx.now → P (rowFor ctx t qin Qold p)) :
    ∀ k, ∀ row ∈ (hydroRun ctx st0 k).rows, P row := by
  intro k
  induction k with
  | zero => exact h0
  | succ k ih =>
      intro row hrow
      rw [hydroRun, hydroStep_rows] at hrow
      rcases List.mem_append.mp hrow with h | h
      · exact ih row h
      · rcases List.mem_map.mp h with ⟨p, hp, he⟩
        exact he ▸ hstep k _ _ p hp

theorem pushPoint_len (ctx : HCtx) (code : String) (r : ObsRecord)
    (tAbs : ℕ) (stage : ℝ) (ser : List (String × List SeriesPoint))
    (c : String) :
    ((alGet c (pushPoint ctx code r tAbs stage ser)).getD []).length =
      ((alGet c ser).getD []).length + (if code = c then 1 else 0) := by
  rw [pushPoint]
  by_cases h : code = c
  · subst h; rw [alGet_alUpdate_self]; simp
  · rw [alGet_alUpdate_ne _ _ (fun he => h he.symm)]; simp [h]

theorem stepEmit_series_len (ctx : HCtx) (t : ℕ)
    (qin Qold : List (String × ℝ)) (c : String) :
    ∀ (l : List (String × ObsRecord)) (st : LoopState),
      ((alGet c (stepEmit ctx t qin Qold l st).series).getD []).length =
        ((alGet c st.series).getD []).length +
          l.countP (fun p => decide (p.1 = c)) := by
  intro l
  induction l with
  | nil => intro st; simp [stepEmit]
  | cons p rest ih =>
      intro st
      rw [stepEmit, ih, List.countP_cons]
      have : (alGet c (emitOne ctx t qin Qold p st).series).getD [] =
          (alGet c (pushPoint ctx p.1 p.2 (ctx.base + t)
            (stageFor ctx qin Qold p.1) st.series)).getD [] := rfl
      rw [this, pushPoint_len]
      by_cases h : p.1 = c <;> simp [h] <;> ring

theorem hydroRun_series_len (ctx : HCtx) (st0 : LoopState) (c : String) :
    ∀ k : ℕ,
      ((alGet c (hydroRun ctx st0 k).series).getD []).length =
        ((alGet c st0.series).getD []).length +
          k * ctx.now.countP (fun p => decide (p.1 = c)) := by
  intro k
  induction k with
  | zero => simp [hydroRun]
  | succ k ih =>
      rw [hydroRun, hydroStep]
      rw [stepEmit_series_len]
      simp only []
      rw [ih]
      ring

theorem initSeries_len (ctx : HCtx) (c : String) :
    ((alGet c (initSeries ctx)).getD []).length =
      ctx.now.countP (fun p => decide (p.1 = c)) := by
  suffices h : ∀ (l : List (String × ObsRecord))
      (ser : List (String × List SeriesPoint)),
      ((alGet c (l.foldl (fun s p =>
          pushPoint ctx p.1 p.2 ctx.base (p.2.water_level_cm.getD 0) s)
        ser)).getD []).length =
        ((alGet c ser).getD []).length +
          l.countP (fun p => decide (p.1 = c)) by
    have := h ctx.now []
    simpa [initSeries, alGet] using this
  intro l
  induction l with
  | nil => intro ser; simp
  | cons p rest ih =>
      intro ser
      rw [List.foldl_cons, ih, pushPoint_len, List.countP_cons]
      by_cases h : p.1 = c <;> simp [h] <;> ring

theorem stepEmit_tableAcc_get (ctx : HCtx) (t : ℕ)
    (qin Qold : List (String × ℝ)) (c : String) :
    ∀ (l : List (String × ObsRecord)) (st : LoopState),
      (l.map Prod.fst).Nodup →
      alGet c (stepEmit ctx t qin Qold l st).tableAcc =
        if (ctx.base + t) % 24 = 23 ∧ c ∈ l.map Prod.fst then
          some (writeTbl (tblIdx ctx.base (ctx.base + t))
            (round10 (stageFor ctx qin Qold c)) (alGet c st.tableAcc))
        else alGet c st.tableAcc := by
  intro l
  induction l with
  | nil => intro st _; simp [stepEmit]
  | cons p rest ih =>
      intro st hnd
      simp only [List.map_cons, List.nodup_cons] at hnd
      rw [stepEmit, ih _ hnd.2]
      by_cases hc : p.1 = c
      · have hcr : c ∉ rest.map Prod.fst := hc ▸ hnd.1
        have hmem : c ∈ (p :: rest).map Prod.fst := by simp [hc]
        by_cases hend : (ctx.base + t) % 24 = 23
        · have : alGet c (emitOne ctx t qin Qold p st).tableAcc =
              some (writeTbl (tblIdx ctx.base (ctx.base + t))
                (round10 (stageFor ctx qin Qold c)) (alGet c st.tableAcc)) := by
            simp only [emitOne, hend, if_true]
            rw [hc, alGet_alUpdate_self]
          simp [hcr, hend, hmem, this, hc]
        · have : alGet c (emitOne ctx t qin Qold p st).tableAcc =
              alGet c st.tableAcc := by
            simp [emitOne, hend]
          simp [hcr, hend, this]
      · have hc' : ¬(c = p.1) := fun h => hc h.symm
        have hmem : (c ∈ (p :: rest).map Prod.fst) ↔
            (c ∈ rest.map Prod.fst) := by
          simp [hc']
        have hsame : alGet c (emitOne ctx t qin Qold p st).tableAcc =
            alGet c st.tableAcc := by
          simp only [emitOne]
          by_cases hend : (ctx.base + t) % 24 = 23
          · simp only [hend, if_true]
            exact alGet_alUpdate_ne _ _ (fun he => hc he.symm)
          · simp [hend]
        rw [hsame]
        simp only [hmem]

theorem tblIdx_lt (b tAbs : ℕ) : tblIdx b tAbs < 3 := by
  rw [tblIdx]
  split_ifs <;> norm_num

theorem tripIdx_writeTbl (idx j : ℕ) (hidx : idx < 3) (hj3 : j < 3) (v : ℝ)
    (cur : Option (Option ℝ × Option ℝ × Option ℝ)) :
    tripIdx (writeTbl idx v cur) j =
      if idx = j then some v
      else tripIdx (cur.getD (none, none, none)) j := by
  have hi : idx = 0 ∨ idx = 1 ∨ idx = 2 := by omega
  have hj : j = 0 ∨ j = 1 ∨ j = 2 := by omega
  rcases hi with h | h | h <;> subst h <;>
    rcases hj with h' | h' | h' <;> subst h' <;>
      simp [writeTbl, tripIdx]

theorem hydroRun_tableAcc_isSome (ctx : HCtx) (st0 : LoopState)
    (hnd : (ctx.now.map Prod.fst).Nodup) (c : String)
    (hc : c ∈ ctx.now.map Prod.fst) (h0 : alGet c st0.tableAcc = none) :
    ∀ k j, j < 3 →
      ((tripIdx ((alGet c (hydroRun ctx st0 k).tableAcc).getD
          (none, none, none)) j).isSome = true ↔
        ∃ t, t < k ∧ (ctx.base + t) % 24 = 23 ∧
          tblIdx ctx.base (ctx.base + t) = j) := by
  intro k
  induction k with
  | zero =>
      intro j hj
      rw [hydroRun, h0]
      simp [tripIdx, ite_self]
  | succ k ih =>
      intro j hj
      have htbl : (hydroRun ctx st0 (k + 1)).tableAcc =
          (stepEmit ctx k (routePass ctx (hydroRun ctx st0 k).Qstate
              (hydroRun ctx st0 k).prevSeg).2 (hydroRun ctx st0 k).Qstate
            ctx.now
            ⟨(hydroRun ctx st0 k).Qstate,
              (routePass ctx (hydroRun ctx st0 k).Qstate
                (hydroRun ctx st0 k).prevSeg).1,
              (hydroRun ctx st0 k).rows, (hydroRun ctx st0 k).tableAcc,
              (hydroRun ctx st0 k).series⟩).tableAcc := by
        rw [hydroRun, hydroStep]
      rw [htbl, stepEmit_tableAcc_get _ _ _ _ _ _ _ hnd]
      by_cases hend : (ctx.base + k) % 24 = 23
      · rw [if_pos ⟨hend, hc⟩]
        simp only [Option.getD_some]
        rw [tripIdx_writeTbl _ _ (tblIdx_lt _ _) hj]
        by_cases hji : tblIdx ctx.base (ctx.base + k) = j
        · rw [if_pos hji]
          exact iff_of_true rfl ⟨k, Nat.lt_succ_self k, hend, hji⟩
        · rw [if_neg hji, ih j hj]
          constructor
          · rintro ⟨t, ht, h23, hidx⟩
            exact ⟨t, ht.trans (Nat.lt_succ_self k), h23, hidx⟩
          · rintro ⟨t, ht, h23, hidx⟩
            rcases Nat.lt_succ_iff_lt_or_eq.mp ht with h | h
            · exact ⟨t, h, h23, hidx⟩
            · exact absurd (h ▸ hidx) hji
      · rw [if_neg (fun hh => hend hh.1), ih j hj]
        constructor
        · rintro ⟨t, ht, h23, hidx⟩
          exact ⟨t, ht.trans (Nat.lt_succ_self k), h23, hidx⟩
        · rintro ⟨t, ht, h23, hidx⟩
          rcases Nat.lt_succ_iff_lt_or_eq.mp ht with h | h
          · exact ⟨t, h, h23, hidx⟩
          · exact absurd (h ▸ h23) hend

theorem countP_keys_eq_one {K V : Type} [DecidableEq K] (c : K) :
    ∀ l : List (K × V), (l.map Prod.fst).Nodup → c ∈ l.map Prod.fst →
      l.countP (fun p => decide (p.1 = c)) = 1 := by
  intro l
  induction l with
  | nil => intro _ hc; cases hc
  | cons p rest ih =>
      intro hnd hc
      simp only [List.map_cons, List.nodup_cons] at hnd
      rw [List.countP_cons]
      by_cases h : p.1 = c
      · have hz : rest.countP (fun p => decide (p.1 = c)) = 0 := by
          rw [List.countP_eq_zero]
          intro q hq
          simp only [decide_eq_true_eq]
          intro he
          exact hnd.1 (h ▸ he ▸ List.mem_map.mpr ⟨q, hq, rfl⟩)
        simp [h, hz]
      · have hcr : c ∈ rest.map Prod.fst := by
          rcases List.mem_cons.mp hc with hx | hx
          · exact absurd hx.symm h
          · exact hx
        simp [h, ih hnd.2 hcr]

theorem exists_snapshot (base : ℕ) :
    ∀ j, j < 3 → ∃ t, t < 72 ∧ (base + t) % 24 = 23 ∧
      tblIdx base (base + t) = j := by
  intro j hj
  refine ⟨23 - base % 24 + 24 * j, by omega, by omega, ?_⟩
  have hd : (base + (23 - base % 24 + 24 * j)) / 24 = base / 24 + j := by
    omega
  rw [tblIdx, hd]
  split_ifs <;> omega

theorem round10_zero : round10 0 = 0 := by
  rw [round10]
  norm_num

theorem hydroForecast_rows (ci : List ObsRecord) (s : List Settings)
    (aux : HydroAux) (base : ℕ) :
    (hydroForecast ci s aux base).rows =
      sortOrd rowLt (hydroRun (hydroCtx ci s aux base)
        (hydroInit ci s aux base) 72).rows := rfl

theorem hydroForecast_series (ci : List ObsRecord) (s : List Settings)
    (aux : HydroAux) (base : ℕ) :
    (hydroForecast ci s aux base).series =
      (hydroRun (hydroCtx ci s aux base) (hydroInit ci s aux base) 72).series :=
  rfl

theorem hydroForecast_table (ci : List ObsRecord) (s : List Settings)
    (aux : HydroAux) (base : ℕ) :
    (hydroForecast ci s aux base).table =
      sortOrd tblLt ((hydroRun (hydroCtx ci s aux base)
          (hydroInit ci s aux base) 72).tableAcc.map
        (mkTableRow s (nowByCode ci) base)) := rfl

theorem hydroCtx_now (ci : List ObsRecord) (s : List Settings)
    (aux : HydroAux) (base : ℕ) :
    (hydroCtx ci s aux base).now = nowByCode ci := rfl

theorem hydroCtx_base (ci : List ObsRecord) (s : List Settings)
    (aux : HydroAux) (base : ℕ) :
    (hydroCtx ci s aux base).base = base := rfl

theorem hydroInit_rows (ci : List ObsRecord) (s : List Settings)
    (aux : HydroAux) (base : ℕ) : (hydroInit ci s aux base).rows = [] := rfl

theorem hydroInit_tableAcc (ci : List ObsRecord) (s : List Settings)
    (aux : HydroAux) (base : ℕ) :
    (hydroInit ci s aux base).tableAcc = [] := rfl

theorem hydroInit_series (ci : List ObsRecord) (s : List Settings)
    (aux : HydroAux) (base : ℕ) :
    (hydroInit ci s aux base).series =
      initSeries (hydroCtx ci s aux base) := rfl

/-- Claim C2 fails on the code: station Q is observed but absent from the
network and rating data, yet the hydrologic branch still emits 72 hourly
rows for it (it is not excluded). -/
theorem C2_counterexample :
    ((hydroForecast [obsP, obsQ] [] auxC2 0).rows.countP
      (fun row => decide (row.station_code = "Q"))) = 72 ∧ (72 : ℕ) ≠ 0 := by
  refine ⟨?_, by norm_num⟩
  rw [hydroForecast_rows, (sortOrd_perm rowLt _).countP_eq,
    hydroRun_rows_count, hydroInit_rows]
  have hnow : (hydroCtx [obsP, obsQ] [] auxC2 0).now =
      [("P", obsP), ("Q", obsQ)] := by
    have hp : jsTrim "P" = "P" := by decide
    have hq : jsTrim "Q" = "Q" := by decide
    rw [hydroCtx_now]
    simp [nowByCode, alSet, alUpdate, obsP, obsQ, hp, hq]
  rw [hnow]
  simp

/-- Claim C2 (amended): a station present in `nowByCode` is never excluded
from the hydrologic branch — regardless of whether the network or rating
data mention it, it receives a discharge and lateral inflow and appears in
all three outputs: exactly 72 hourly rows, 73 chart points (the seeded
observation plus one per step), and a daily triple with all three day
snapshots filled; when the station has no rating curve its reported stage
in every hourly row is 0 (the degenerate `qToStage_cm` value), rounded. -/
theorem C2_station_missing_from_aux_still_included
    (ci : List ObsRecord) (s : List Settings) (aux : HydroAux) (base : ℕ)
    (c : String) (hc : c ∈ (nowByCode ci).map Prod.fst) :
    ((hydroForecast ci s aux base).rows.countP
        (fun row => decide (row.station_code = c))) = 72 ∧
    ((alGet c (hydroForecast ci s aux base).series).getD []).length = 73 ∧
    (∀ j, j < 3 →
      (tripIdx ((alGet c (hydroRun (hydroCtx ci s aux base)
          (hydroInit ci s aux base) 72).tableAcc).getD
        (none, none, none)) j).isSome = true) ∧
    (alGet c aux.rating = none →
      ∀ row ∈ (hydroForecast ci s aux base).rows,
        row.station_code = c → row.forecast_water_level_cm = 0) := by
  have hnd : ((hydroCtx ci s aux base).now.map Prod.fst).Nodup :=
    nowByCode_keys_nodup ci
  have hc' : c ∈ (hydroCtx ci s aux base).now.map Prod.fst := hc
  have h1 : (hydroCtx ci s aux base).now.countP
      (fun p => decide (p.1 = c)) = 1 :=
    countP_keys_eq_one c _ (nowByCode_keys_nodup ci) hc
  refine ⟨?_, ?_, ?_, ?_⟩
  · rw [hydroForecast_rows, (sortOrd_perm rowLt _).countP_eq,
      hydroRun_rows_count, hydroInit_rows, h1]
    simp
  · rw [hydroForecast_series, hydroRun_series_len, hydroInit_series,
      initSeries_len, h1]
  · intro j hj
    rw [hydroRun_tableAcc_isSome (hydroCtx ci s aux base)
      (hydroInit ci s aux base) hnd c hc' (by rw [hydroInit_tableAcc]; rfl)
      72 j hj, hydroCtx_base]
    exact exists_snapshot base j hj
  · intro hrc row hrow hcode
    rw [hydroForecast_rows] at hrow
    have hmem := (sortOrd_perm rowLt _).mem_iff.mp hrow
    refine hydroRun_rows_all (hydroCtx ci s aux base)
      (hydroInit ci s aux base)
      (fun row => row.station_code = c → row.forecast_water_level_cm = 0)
      (by intro r hr; cases hr) ?_ 72 row hmem hcode
    intro t qin Qold p _ hp1
    have hp1' : p.1 = c := hp1
    have hstage : stageFor (hydroCtx ci s aux base) qin Qold p.1 = 0 := by
      rw [stageFor, hp1']
      have : alGet c (hydroCtx ci s aux base).rating = none := hrc
      rw [this, qToStage_cm]
    show round10 (stageFor (hydroCtx ci s aux base) qin Qold p.1) = 0
    rw [hstage, round10_zero]

/-- Witness for C2 (amended) at the two-station input: station Q, absent
from network and rating, still gets 72 hourly rows. -/
theorem C2_station_missing_witness :
    ("Q" ∈ (nowByCode [obsP, obsQ]).map Prod.fst) ∧
    ((hydroForecast [obsP, obsQ] [] auxC2 0).rows.countP
        (fun row => decide (row.station_code = "Q"))) = 72 := by
  have hq : "Q" ∈ (nowByCode [obsP, obsQ]).map Prod.fst := by
    have hp : jsTrim "P" = "P" := by decide
    have hq' : jsTrim "Q" = "Q" := by decide
    simp [nowByCode, alSet, alUpdate, obsP, obsQ, hp, hq']
  exact ⟨hq, (C2_station_missing_from_aux_still_included
    [obsP, obsQ] [] auxC2 0 "Q" hq).1⟩

/-! ### Concrete evaluation of the section-8 scenario (claim C4) -/

theorem stepEmit_Qstate (ctx : HCtx) (t : ℕ) (qin Qold : List (String × ℝ)) :
    ∀ (l : List (String × ObsRecord)) (st : LoopState),
      (stepEmit ctx t qin Qold l st).Qstate =
        l.foldl (fun m p => alSet p.1 (qNextFor ctx qin Qold p.1) m)
          st.Qstate := by
  intro l
  induction l with
  | nil => intro st; simp [stepEmit]
  | cons p rest ih =>
      intro st
      rw [stepEmit, ih]
      rfl

theorem hydroStep_Qstate (ctx : HCtx) (t : ℕ) (st : LoopState) :
    (hydroStep ctx t st).Qstate =
      ctx.now.foldl
        (fun m p => alSet p.1 (qNextFor ctx
          (routePass ctx st.Qstate st.prevSeg).2 st.Qstate p.1) m)
        st.Qstate := by
  rw [hydroStep]
  rw [stepEmit_Qstate]

theorem topoC4 : topoOrDepthFirst (buildGraph [reachAB]) = [reachAB] := by
  have ha : jsTrim "A" = "A" := by decide
  have hb : jsTrim "B" = "B" := by decide
  simp [topoOrDepthFirst, topoState, buildGraph, sourceNodes, dedupFirst,
    dfsGo, reachAB, ha, hb, List.enum, List.enumFrom]

theorem hydroCtx_lateral (ci : List ObsRecord) (s : List Settings)
    (aux : HydroAux) (base : ℕ) :
    (hydroCtx ci s aux base).lateral =
      buildLateral (nowByCode ci) ci aux.basins := rfl

theorem hydroCtx_rating (ci : List ObsRecord) (s : List Settings)
    (aux : HydroAux) (base : ℕ) :
    (hydroCtx ci s aux base).rating = aux.rating := rfl

theorem hydroCtx_segParams (ci : List ObsRecord) (s : List Settings)
    (aux : HydroAux) (base : ℕ) :
    (hydroCtx ci s aux base).segParams =
      buildSegParams (buildGraph aux.network)
        (initQnow (nowByCode ci) aux.rating) aux.rating := rfl

theorem hydroCtx_order (ci : List ObsRecord) (s : List Settings)
    (aux : HydroAux) (base : ℕ) :
    (hydroCtx ci s aux base).routeOrder =
      topoOrDepthFirst (buildGraph aux.network) := rfl

theorem hydroInit_Qstate (ci : List ObsRecord) (s : List Settings)
    (aux : HydroAux) (base : ℕ) :
    (hydroInit ci s aux base).Qstate =
      initQnow (nowByCode ci) aux.rating := rfl

theorem hydroInit_prevSeg (ci : List ObsRecord) (s : List Settings)
    (aux : HydroAux) (base : ℕ) :
    (hydroInit ci s aux base).prevSeg =
      initPrev (buildGraph aux.network)
        (initQnow (nowByCode ci) aux.rating) := rfl

theorem nowC4 (st : ℝ) :
    nowByCode (inputsC4 st) = [("A", obsA st), ("B", obsB)] := by
  have ha : jsTrim "A" = "A" := by decide
  have hb : jsTrim "B" = "B" := by decide
  simp [nowByCode, inputsC4, alSet, alUpdate, obsA, obsB, ha, hb]

theorem qnowC4 (st : ℝ) :
    initQnow (nowByCode (inputsC4 st)) auxC4.rating =
      [("A", stageToQ_cm (some st) (some rcC4)),
       ("B", stageToQ_cm (some 80) (some rcC4))] := by
  rw [nowC4]
  simp [initQnow, alSet, alUpdate, alGet, auxC4, obsA, obsB]

theorem segPrmC4 (q : ℝ) :
    segPrmFor reachAB q (some rcC4) = ⟨kC4 q, 0.2, 40, 3, some rcC4⟩ := by
  simp [segPrmFor, reachAB, kC4]

theorem latC4 (st : ℝ) :
    alGet "B" (buildLateral (nowByCode (inputsC4 st)) (inputsC4 st)
      auxC4.basins) = some (0 + max (max 5 0) 0 * 0.2) := by
  have hz : jsTrim "Z" = "Z" := by decide
  rw [nowC4]
  simp [buildLateral, latFor, aggregateLatestPrecip, aggUpd, inputsC4,
    alSet, alUpdate, alGet, auxC4, obsA, obsB, hz]

theorem routeC4 (st : ℝ) :
    (routePass (hydroCtx (inputsC4 st) [] auxC4 0)
      (initQnow (nowByCode (inputsC4 st)) auxC4.rating)
      (initPrev (buildGraph auxC4.network)
        (initQnow (nowByCode (inputsC4 st)) auxC4.rating))).2 =
    [("B", 0 + muskingumStep (stageToQ_cm (some st) (some rcC4))
      ⟨stageToQ_cm (some st) (some rcC4), stageToQ_cm (some 80) (some rcC4)⟩
      (kC4 (stageToQ_cm (some st) (some rcC4))) 0.2 3600)] := by
  have ha : jsTrim "A" = "A" := by decide
  have hb : jsTrim "B" = "B" := by decide
  have horder : (hydroCtx (inputsC4 st) [] auxC4 0).routeOrder = [reachAB] := by
    rw [hydroCtx_order]
    exact topoC4
  have hgraph : buildGraph auxC4.network = [reachAB] := by
    simp [buildGraph, auxC4, reachAB, ha, hb]
  have hseg : (hydroCtx (inputsC4 st) [] auxC4 0).segParams =
      [(keyEdge "A" "B",
        ⟨kC4 (stageToQ_cm (some st) (some rcC4)), 0.2, 40, 3, some rcC4⟩)] := by
    rw [hydroCtx_segParams, hgraph, qnowC4]
    simp only [List.foldl_cons, List.foldl_nil, buildSegParams]
    rw [show (alGet reachAB.from_code
        [("A", stageToQ_cm (some st) (some rcC4)),
         ("B", stageToQ_cm (some 80) (some rcC4))]) =
      some (stageToQ_cm (some st) (some rcC4)) by simp [reachAB, alGet]]
    rw [show alGet reachAB.to_code auxC4.rating = some rcC4 by
      simp [reachAB, auxC4, alGet]]
    simp only [Option.getD_some, alSet]
    rw [show reachAB.from_code = "A" from rfl, show reachAB.to_code = "B" from rfl]
    rw [segPrmC4]
    rfl
  have hprev : initPrev (buildGraph auxC4.network)
      [("A", stageToQ_cm (some st) (some rcC4)),
       ("B", stageToQ_cm (some 80) (some rcC4))] =
      [(keyEdge "A" "B", ⟨stageToQ_cm (some st) (some rcC4),
        stageToQ_cm (some 80) (some rcC4)⟩)] := by
    rw [hgraph]
    simp [initPrev, alSet, alUpdate, alGet, reachAB]
  rw [routePass, horder, qnowC4]
  simp only [List.foldl_cons, List.foldl_nil]
  rw [show reachAB.from_code = "A" from rfl, show reachAB.to_code = "B" from rfl]
  rw [hseg, hprev]
  simp [alGet, alUpdate, alSet]

theorem qB1_eval (st : ℝ) :
    qB1 st = some (max 0
      (0.2 * stageToQ_cm (some 80) (some rcC4) +
        (0 + muskingumStep (stageToQ_cm (some st) (some rcC4))
          ⟨stageToQ_cm (some st) (some rcC4), stageToQ_cm (some 80) (some rcC4)⟩
          (kC4 (stageToQ_cm (some st) (some rcC4))) 0.2 3600) +
        (0 + max (max 5 0) 0 * 0.2))) := by
  rw [qB1]
  rw [show hydroRun (hydroCtx (inputsC4 st) [] auxC4 0)
      (hydroInit (inputsC4 st) [] auxC4 0) 1 =
    hydroStep (hydroCtx (inputsC4 st) [] auxC4 0) 0
      (hydroInit (inputsC4 st) [] auxC4 0) from rfl]
  rw [hydroStep_Qstate, hydroInit_Qstate, hydroInit_prevSeg, routeC4]
  rw [show (hydroCtx (inputsC4 st) [] auxC4 0).now =
    [("A", obsA st), ("B", obsB)] from nowC4 st]
  simp only [List.foldl_cons, List.foldl_nil]
  rw [alGet_alSet_self, qNextFor, qnowC4, hydroCtx_lateral, latC4]
  simp [alGet]

theorem celerity_ge_five (q : ℝ) :
    5 ≤ celerity_mps q 40 3 (max 0.001 1e-6) 0.035 := by
  rw [celerity_mps]
  refine le_trans ?_ (le_max_left _ _)
  have hv : 0 ≤ 1 / 0.035 *
      (max ((40 : ℝ) * 3 / (40 + 2 * 3)) 1e-6) ^ ((2 : ℝ) / 3) *
      Real.sqrt (max (max 0.001 1e-6) 1e-6) := by
    refine mul_nonneg (mul_nonneg (by norm_num) (Real.rpow_nonneg ?_ _))
      (Real.sqrt_nonneg _)
    exact le_trans (by norm_num) (le_max_right _ _)
  have hs : (5 : ℝ) ≤ Real.sqrt (max (9.81 * 3) 0) := by
    rw [show max ((9.81 : ℝ) * 3) 0 = 29.43 by
      rw [max_eq_left (by norm_num)]; norm_num]
    rw [show (5 : ℝ) = Real.sqrt 25 by
      rw [show (25 : ℝ) = 5 ^ 2 by norm_num, Real.sqrt_sq (by norm_num)]]
    exact Real.sqrt_le_sqrt (by norm_num)
  linarith

theorem kC4_eq (q : ℝ) : kC4 q = 3600 := by
  rw [kC4]
  apply max_eq_right
  have hc := celerity_ge_five q
  have hpos : 0 < celerity_mps q 40 3 (max 0.001 1e-6) 0.035 :=
    lt_of_lt_of_le (by norm_num) hc
  rw [div_le_iff hpos]
  nlinarith [hc]

theorem stageToQ_C4_zero : stageToQ_cm (some 0) (some rcC4) = 0 := by
  rw [stageToQ_cm]
  simp only [rcC4, Option.getD_some]
  rw [sub_zero, max_self]
  rw [Real.zero_rpow (by norm_num), mul_zero]

theorem stageToQ_C4_pos : 0 < stageToQ_cm (some 100) (some rcC4) := by
  rw [stageToQ_cm]
  simp only [rcC4, Option.getD_some]
  rw [sub_zero, show max (100 : ℝ) 0 = 100 from max_eq_left (by norm_num)]
  positivity

theorem stageToQ_C4_nonneg : 0 ≤ stageToQ_cm (some 80) (some rcC4) := by
  rw [stageToQ_cm]
  simp only [rcC4, Option.getD_some]
  refine mul_nonneg (by norm_num) (Real.rpow_nonneg (le_max_right _ _) _)

theorem alUpdate_keys_cases {K V : Type} [DecidableEq K] (k : K)
    (f : Option V → V) (m : List (K × V)) {x : K}
    (hx : x ∈ (alUpdate k f m).map Prod.fst) :
    x ∈ m.map Prod.fst ∨ x = k := by
  rw [alUpdate_keys] at hx
  by_cases h : k ∈ m.map Prod.fst
  · rw [if_pos h] at hx; exact Or.inl hx
  · rw [if_neg h] at hx
    rcases List.mem_append.mp hx with h' | h'
    · exact Or.inl h'
    · simp at h'; exact Or.inr h'

theorem stepEmit_tableAcc_keys (ctx : HCtx) (t : ℕ)
    (qin Qold : List (String × ℝ)) :
    ∀ (l : List (String × ObsRecord)) (st : LoopState) (x : String),
      x ∈ (stepEmit ctx t qin Qold l st).tableAcc.map Prod.fst →
      x ∈ st.tableAcc.map Prod.fst ∨ x ∈ l.map Prod.fst := by
  intro l
  induction l with
  | nil => intro st x hx; exact Or.inl hx
  | cons p rest ih =>
      intro st x hx
      rw [stepEmit] at hx
      rcases ih _ x hx with h | h
      · simp only [emitOne] at h
        by_cases hend : (ctx.base + t) % 24 = 23
        · rw [if_pos hend] at h
          rcases alUpdate_keys_cases _ _ _ h with h' | h'
          · exact Or.inl h'
          · exact Or.inr (by simp [h'])
        · rw [if_neg hend] at h
          exact Or.inl h
      · exact Or.inr (List.mem_cons_of_mem _ h)

theorem stepEmit_tableAcc_nodup (ctx : HCtx) (t : ℕ)
    (qin Qold : List (String × ℝ)) :
    ∀ (l : List (String × ObsRecord)) (st : LoopState),
      (st.tableAcc.map Prod.fst).Nodup →
      ((stepEmit ctx t qin Qold l st).tableAcc.map Prod.fst).Nodup := by
  intro l
  induction l with
  | nil => intro st h; exact h
  | cons p rest ih =>
      intro st h
      rw [stepEmit]
      refine ih _ ?_
      simp only [emitOne]
      by_cases hend : (ctx.base + t) % 24 = 23
      · rw [if_pos hend]; exact alUpdate_keys_nodup _ _ h
      · rw [if_neg hend]; exact h

theorem hydroRun_tableAcc_keys (ctx : HCtx) (st0 : LoopState) :
    ∀ (k : ℕ) (x : String),
      x ∈ (hydroRun ctx st0 k).tableAcc.map Prod.fst →
      x ∈ st0.tableAcc.map Prod.fst ∨ x ∈ ctx.now.map Prod.fst := by
  intro k
  induction k with
  | zero => intro x hx; exact Or.inl hx
  | succ k ih =>
      intro x hx
      rw [hydroRun, hydroStep] at hx
      rcases stepEmit_tableAcc_keys _ _ _ _ _ _ x hx with h | h
      · exact ih x h
      · exact Or.inr h

theorem hydroRun_tableAcc_nodup (ctx : HCtx) (st0 : LoopState)
    (h0 : (st0.tableAcc.map Prod.fst).Nodup) :
    ∀ k : ℕ, ((hydroRun ctx st0 k).tableAcc.map Prod.fst).Nodup := by
  intro k
  induction k with
  | zero => exact h0
  | succ k ih =>
      rw [hydroRun, hydroStep]
      exact stepEmit_tableAcc_nodup _ _ _ _ _ _ ih

theorem hydroForecast_table_len (ci : List ObsRecord) (s : List Settings)
    (aux : HydroAux) (base : ℕ) :
    (hydroForecast ci s aux base).table.length = (nowByCode ci).length := by
  have hnodupT : (((hydroRun (hydroCtx ci s aux base)
      (hydroInit ci s aux base) 72).tableAcc).map Prod.fst).Nodup :=
    hydroRun_tableAcc_nodup _ _ (by rw [hydroInit_tableAcc]; simp) 72
  have hsub : ∀ x ∈ ((hydroRun (hydroCtx ci s aux base)
      (hydroInit ci s aux base) 72).tableAcc).map Prod.fst,
      x ∈ (nowByCode ci).map Prod.fst := by
    intro x hx
    rcases hydroRun_tableAcc_keys _ _ 72 x hx with h | h
    · rw [hydroInit_tableAcc] at h; cases h
    · exact h
  have hsup : ∀ c ∈ (nowByCode ci).map Prod.fst,
      c ∈ ((hydroRun (hydroCtx ci s aux base)
        (hydroInit ci s aux base) 72).tableAcc).map Prod.fst := by
    intro c hc
    have hiss := (hydroRun_tableAcc_isSome (hydroCtx ci s aux base)
      (hydroInit ci s aux base) (nowByCode_keys_nodup ci) c hc
      (by rw [hydroInit_tableAcc]; rfl) 72 0 (by norm_num)).mpr
      (by rw [hydroCtx_base]; exact exists_snapshot base 0 (by norm_num))
    by_contra hcT
    rw [(alGet_eq_none_iff c _).mpr hcT] at hiss
    simp [tripIdx] at hiss
  have hfin : (((hydroRun (hydroCtx ci s aux base)
      (hydroInit ci s aux base) 72).tableAcc).map Prod.fst).toFinset =
      ((nowByCode ci).map Prod.fst).toFinset := by
    ext x
    simp only [List.mem_toFinset]
    exact ⟨hsub x, hsup x⟩
  rw [hydroForecast_table, (sortOrd_perm tblLt _).length_eq,
    List.length_map]
  calc (hydroRun (hydroCtx ci s aux base)
      (hydroInit ci s aux base) 72).tableAcc.length
      = (((hydroRun (hydroCtx ci s aux base)
          (hydroInit ci s aux base) 72).tableAcc).map Prod.fst).length := by
        rw [List.length_map]
    _ = (((hydroRun (hydroCtx ci s aux base)
          (hydroInit ci s aux base) 72).tableAcc).map
          Prod.fst).toFinset.card := by
        rw [List.toFinset_card_of_nodup hnodupT]
    _ = (((nowByCode ci).map Prod.fst).toFinset).card := by rw [hfin]
    _ = ((nowByCode ci).map Prod.fst).length :=
        List.toFinset_card_of_nodup (nowByCode_keys_nodup ci)
    _ = (nowByCode ci).length := by rw [List.length_map]

theorem hydroForecast_table_filled (ci : List ObsRecord) (s : List Settings)
    (aux : HydroAux) (base : ℕ) :
    ∀ row ∈ (hydroForecast ci s aux base).table,
      row.wl_today_cm.isSome = true ∧ row.wl_tomorrow_cm.isSome = true ∧
        row.wl_day_after_cm.isSome = true := by
  intro row hrow
  rw [hydroForecast_table] at hrow
  have hmem := (sortOrd_perm tblLt _).mem_iff.mp hrow
  rcases List.mem_map.mp hmem with ⟨entry, hent, heq⟩
  have hnodupT : (((hydroRun (hydroCtx ci s aux base)
      (hydroInit ci s aux base) 72).tableAcc).map Prod.fst).Nodup :=
    hydroRun_tableAcc_nodup _ _ (by rw [hydroInit_tableAcc]; simp) 72
  have hkey : entry.1 ∈ ((hydroRun (hydroCtx ci s aux base)
      (hydroInit ci s aux base) 72).tableAcc).map Prod.fst :=
    List.mem_map.mpr ⟨entry, hent, rfl⟩
  have hcN : entry.1 ∈ (nowByCode ci).map Prod.fst := by
    rcases hydroRun_tableAcc_keys _ _ 72 entry.1 hkey with h | h
    · rw [hydroInit_tableAcc] at h; cases h
    · exact h
  have hget : alGet entry.1 (hydroRun (hydroCtx ci s aux base)
      (hydroInit ci s aux base) 72).tableAcc = some entry.2 :=
    alGet_of_mem_nodup hnodupT (by rw [Prod.mk.eta]; exact hent)
  have hIdx : ∀ j, j < 3 → (tripIdx entry.2 j).isSome = true := by
    intro j hj
    have h := (hydroRun_tableAcc_isSome (hydroCtx ci s aux base)
      (hydroInit ci s aux base) (nowByCode_keys_nodup ci) entry.1 hcN
      (by rw [hydroInit_tableAcc]; rfl) 72 j hj).mpr
      (by rw [hydroCtx_base]; exact exists_snapshot base j hj)
    rw [hget] at h
    simpa using h
  have h0 := hIdx 0 (by norm_num)
  have h1 := hIdx 1 (by norm_num)
  have h2 := hIdx 2 (by norm_num)
  rw [show tripIdx entry.2 0 = entry.2.1 from rfl] at h0
  rw [show tripIdx entry.2 1 = entry.2.2.1 from rfl] at h1
  rw [show tripIdx entry.2 2 = entry.2.2.2 from rfl] at h2
  rw [← heq]
  exact ⟨h0, h1, h2⟩

theorem musk_eval (qa qb : ℝ) (ha : 0 ≤ qa) (hb : 0 ≤ qb) :
    muskingumStep qa ⟨qa, qb⟩ 3600 0.2 3600 =
      10 / 13 * qa + 3 / 13 * qb := by
  rw [muskingumStep]
  simp only []
  rw [max_eq_left]
  · ring_nf
  · positivity

theorem step1_mono (qa qb L : ℝ) (hqa : 0 < qa) (hqb : 0 ≤ qb)
    (hL : 0 ≤ L) :
    (0 ⊔ (0.2 * qb + (0 + (10 / 13 * 0 + 3 / 13 * qb)) + L)) <
      (0 ⊔ (0.2 * qb + (0 + (10 / 13 * qa + 3 / 13 * qb)) + L)) := by
  rw [max_eq_right (by linarith), max_eq_right (by linarith)]
  linarith

/-- Claim C4 fails on the code: in the section-8 scenario, B's discharge
after the first simulated hour depends on A's seeded inflow — setting A's
observed stage to 0 changes B's step-1 discharge, so the routed
contribution from A at step 1 is not zero (the Muskingum C0 and C1
coefficients pass the seeded inflow through without a one-step lag). -/
theorem C4_counterexample : qB1 100 ≠ qB1 0 := by
  rw [qB1_eval 100, qB1_eval 0, stageToQ_C4_zero, kC4_eq, kC4_eq]
  intro h
  have h' := Option.some_inj.mp h
  rw [musk_eval _ _ stageToQ_C4_pos.le stageToQ_C4_nonneg,
    musk_eval 0 _ le_rfl stageToQ_C4_nonneg] at h'
  have hmono := step1_mono (stageToQ_cm (some 100) (some rcC4))
    (stageToQ_cm (some 80) (some rcC4)) (0 + (max (max 5 0) 0) * 0.2)
    stageToQ_C4_pos stageToQ_C4_nonneg
    (by nlinarith [le_max_right (max (5 : ℝ) 0) (0 : ℝ)])
  exact absurd h'.symm (ne_of_lt hmono)

/-- Claim C4 (amended): the 72-step hydrologic branch on the section-8
scenario produces exactly 72 hourly rows per station and one daily-table
row per station with all three day snapshots filled; and B's updated
discharge at step 1 contains a strictly positive routed contribution from
A (it strictly exceeds the same run with A's stage zeroed), rather than
zero — `K ≥ 3600` does not delay the seeded inflow by a full step. -/
theorem C4_section8_end_to_end :
    ((hydroForecast (inputsC4 100) [] auxC4 0).rows.countP
        (fun row => decide (row.station_code = "A"))) = 72 ∧
    ((hydroForecast (inputsC4 100) [] auxC4 0).rows.countP
        (fun row => decide (row.station_code = "B"))) = 72 ∧
    (hydroForecast (inputsC4 100) [] auxC4 0).table.length = 2 ∧
    (∀ row ∈ (hydroForecast (inputsC4 100) [] auxC4 0).table,
      row.wl_today_cm.isSome = true ∧ row.wl_tomorrow_cm.isSome = true ∧
        row.wl_day_after_cm.isSome = true) ∧
    (qB1 0).getD 0 < (qB1 100).getD 0 := by
  refine ⟨?_, ?_, ?_, hydroForecast_table_filled _ _ _ _, ?_⟩
  · rw [hydroForecast_rows, (sortOrd_perm rowLt _).countP_eq,
      hydroRun_rows_count, hydroInit_rows]
    rw [show (hydroCtx (inputsC4 100) [] auxC4 0).now =
      [("A", obsA 100), ("B", obsB)] from nowC4 100]
    simp
  · rw [hydroForecast_rows, (sortOrd_perm rowLt _).countP_eq,
      hydroRun_rows_count, hydroInit_rows]
    rw [show (hydroCtx (inputsC4 100) [] auxC4 0).now =
      [("A", obsA 100), ("B", obsB)] from nowC4 100]
    simp
  · rw [hydroForecast_table_len, nowC4]
    rfl
  · rw [qB1_eval 100, qB1_eval 0, stageToQ_C4_zero, kC4_eq, kC4_eq]
    simp only [Option.getD_some]
    rw [musk_eval _ _ stageToQ_C4_pos.le stageToQ_C4_nonneg,
      musk_eval 0 _ le_rfl stageToQ_C4_nonneg]
    exact step1_mono (stageToQ_cm (some 100) (some rcC4))
      (stageToQ_cm (some 80) (some rcC4)) (0 + (max (max 5 0) 0) * 0.2)
      stageToQ_C4_pos stageToQ_C4_nonneg
      (by nlinarith [le_max_right (max (5 : ℝ) 0) (0 : ℝ)])

/-! ### DFS traversal lemmas (claim C6) -/

theorem dfsGo_used_ext (all : List (ℕ × Reach)) :
    ∀ (fuel : ℕ) (node : String) (lst : List (ℕ × Reach)) (st : DState),
      ∃ ext, (dfsGo all fuel node lst st).used = ext ++ st.used := by
  intro fuel
  induction fuel with
  | zero => intro node lst st; exact ⟨[], by rw [dfsGo]; simp⟩
  | succ fuel ihf =>
      intro node lst
      induction lst with
      | nil => intro st; exact ⟨[], by rw [dfsGo]; simp⟩
      | cons p rest ihl =>
          intro st
          obtain ⟨i, e⟩ := p
          rw [dfsGo]
          by_cases hcond : i ∈ st.used ∨ e.from_code ≠ node
          · rw [if_pos hcond]; exact ihl st
          · rw [if_neg hcond]
            obtain ⟨ext1, h1⟩ := ihf e.to_code all
              ⟨i :: st.used, st.ordered ++ [(i, e)]⟩
            obtain ⟨ext2, h2⟩ := ihl
              (dfsGo all fuel e.to_code all
                ⟨i :: st.used, st.ordered ++ [(i, e)]⟩)
            refine ⟨ext2 ++ (ext1 ++ [i]), ?_⟩
            rw [h2, h1]
            simp

theorem dfsGo_ordered_ext (all : List (ℕ × Reach)) :
    ∀ (fuel : ℕ) (node : String) (lst : List (ℕ × Reach)) (st : DState),
      ∃ ext, (dfsGo all fuel node lst st).ordered = st.ordered ++ ext := by
  intro fuel
  induction fuel with
  | zero => intro node lst st; exact ⟨[], by rw [dfsGo]; simp⟩
  | succ fuel ihf =>
      intro node lst
      induction lst with
      | nil => intro st; exact ⟨[], by rw [dfsGo]; simp⟩
      | cons p rest ihl =>
          intro st
          obtain ⟨i, e⟩ := p
          rw [dfsGo]
          by_cases hcond : i ∈ st.used ∨ e.from_code ≠ node
          · rw [if_pos hcond]; exact ihl st
          · rw [if_neg hcond]
            obtain ⟨ext1, h1⟩ := ihf e.to_code all
              ⟨i :: st.used, st.ordered ++ [(i, e)]⟩
            obtain ⟨ext2, h2⟩ := ihl
              (dfsGo all fuel e.to_code all
                ⟨i :: st.used, st.ordered ++ [(i, e)]⟩)
            refine ⟨(i, e) :: ext1 ++ ext2, ?_⟩
            rw [h2, h1]
            simp

theorem dfsGo_used_mono (all : List (ℕ × Reach)) (fuel : ℕ) (node : String)
    (lst : List (ℕ × Reach)) (st : DState) {i : ℕ} (h : i ∈ st.used) :
    i ∈ (dfsGo all fuel node lst st).used := by
  obtain ⟨ext, he⟩ := dfsGo_used_ext all fuel node lst st
  rw [he]
  exact List.mem_append_right _ h

theorem dfsGo_ordered_mono (all : List (ℕ × Reach)) (fuel : ℕ)
    (node : String) (lst : List (ℕ × Reach)) (st : DState)
    {p : ℕ × Reach} (h : p ∈ st.ordered) :
    p ∈ (dfsGo all fuel node lst st).ordered := by
  obtain ⟨ext, he⟩ := dfsGo_ordered_ext all fuel node lst st
  rw [he]
  exact List.mem_append_left _ h

theorem dfsGo_used_len (all : List (ℕ × Reach)) (fuel : ℕ) (node : String)
    (lst : List (ℕ × Reach)) (st : DState) :
    st.used.length ≤ (dfsGo all fuel node lst st).used.length := by
  obtain ⟨ext, he⟩ := dfsGo_used_ext all fuel node lst st
  rw [he, List.length_append]
  omega

theorem syncInv_mark (all : List (ℕ × Reach)) (st : DState) (i : ℕ)
    (e : Reach) (hmem : (i, e) ∈ all) (hiu : i ∉ st.used)
    (hs : SyncInv all st) :
    SyncInv all ⟨i :: st.used, st.ordered ++ [(i, e)]⟩ := by
  obtain ⟨h1, h2, h3, h4⟩ := hs
  refine ⟨List.nodup_cons.mpr ⟨hiu, h1⟩, ?_, ?_, ?_⟩
  · intro j
    constructor
    · intro hj
      rcases List.mem_cons.mp hj with hj | hj
      · exact ⟨(i, e), List.mem_append_right _ (List.mem_singleton.mpr rfl),
          hj.symm⟩
      · obtain ⟨p, hp, hpe⟩ := (h2 j).mp hj
        exact ⟨p, List.mem_append_left _ hp, hpe⟩
    · rintro ⟨p, hp, hpe⟩
      rcases List.mem_append.mp hp with hp | hp
      · exact List.mem_cons_of_mem _ ((h2 j).mpr ⟨p, hp, hpe⟩)
      · rw [List.mem_singleton.mp hp] at hpe
        exact List.mem_cons.mpr (Or.inl hpe.symm)
  · intro p hp
    rcases List.mem_append.mp hp with h | h
    · exact h3 p h
    · simp at h; rw [h]; exact hmem
  · rw [List.map_append]
    refine List.Nodup.append h4 (by simp) ?_
    intro x hx hx'
    simp at hx'
    rw [hx'] at hx
    rcases List.mem_map.mp hx with ⟨p, hp, hpe⟩
    exact hiu ((h2 i).mpr ⟨p, hp, hpe⟩)

theorem dfsGo_sync (all : List (ℕ × Reach)) :
    ∀ (fuel : ℕ) (node : String) (lst : List (ℕ × Reach)) (st : DState),
      (∀ p ∈ lst, p ∈ all) → SyncInv all st →
      SyncInv all (dfsGo all fuel node lst st) := by
  intro fuel
  induction fuel with
  | zero => intro node lst st _ hs; rw [dfsGo]; exact hs
  | succ fuel ihf =>
      intro node lst
      induction lst with
      | nil => intro st _ hs; rw [dfsGo]; exact hs
      | cons p rest ihl =>
          intro st hsub hs
          obtain ⟨i, e⟩ := p
          rw [dfsGo]
          by_cases hcond : i ∈ st.used ∨ e.from_code ≠ node
          · rw [if_pos hcond]
            exact ihl st (fun q hq => hsub q (List.mem_cons_of_mem _ hq)) hs
          · rw [if_neg hcond]
            push_neg at hcond
            refine ihl _ (fun q hq => hsub q (List.mem_cons_of_mem _ hq)) ?_
            refine ihf e.to_code all _ (fun q hq => hq) ?_
            exact syncInv_mark all st i e
              (hsub (i, e) (List.mem_cons_self _ _)) hcond.1 hs

theorem dfsGo_scan_complete (all : List (ℕ × Reach)) (fuel : ℕ)
    (node : String) :
    ∀ (lst : List (ℕ × Reach)) (st : DState) (i : ℕ) (e : Reach),
      (i, e) ∈ lst → e.from_code = node →
      i ∈ (dfsGo all (fuel + 1) node lst st).used := by
  intro lst
  induction lst with
  | nil => intro st i e hm; cases hm
  | cons p rest ihl =>
      intro st i e hm hfrom
      obtain ⟨j, f⟩ := p
      rw [dfsGo]
      rcases List.mem_cons.mp hm with h | h
      · injection h with hi he
        subst hi; subst he
        by_cases hcond : i ∈ st.used ∨ e.from_code ≠ node
        · rw [if_pos hcond]
          rcases hcond with hu | hne
          · exact dfsGo_used_mono all _ node rest st hu
          · exact absurd hfrom hne
        · rw [if_neg hcond]
          refine dfsGo_used_mono all _ node rest _ ?_
          exact dfsGo_used_mono all fuel e.to_code all _ (List.mem_cons_self _ _)
      · by_cases hcond : j ∈ st.used ∨ f.from_code ≠ node
        · rw [if_pos hcond]; exact ihl st i e h hfrom
        · rw [if_neg hcond]; exact ihl _ i e h hfrom

theorem justified_mono (srcs : List String) (node : String)
    {pre pre' : List (ℕ × Reach)} (h : Justified srcs node pre)
    (hsub : ∀ p ∈ pre, p ∈ pre') : Justified srcs node pre' := by
  rcases h with h | ⟨p, hp, he⟩
  · exact Or.inl h
  · exact Or.inr ⟨p, hsub p hp, he⟩

theorem goodO_append_one (srcs : List String) (o : List (ℕ × Reach))
    (x : ℕ × Reach) (ho : GoodO srcs o)
    (hx : Justified srcs x.2.from_code o) : GoodO srcs (o ++ [x]) := by
  intro k hk
  rw [List.length_append, List.length_singleton] at hk
  by_cases hlt : k < o.length
  · have hget : (o ++ [x]).get ⟨k, by rw [List.length_append]; omega⟩ =
        o.get ⟨k, hlt⟩ := List.get_append k hlt
    have htake : (o ++ [x]).take k = o.take k :=
      List.take_append_of_le_length (le_of_lt hlt)
    rw [hget, htake]
    exact ho k hlt
  · have hk' : k = o.length := by omega
    subst hk'
    have hget : ∀ hb, (o ++ [x]).get ⟨o.length, hb⟩ = x := by
      intro hb; simp
    rw [hget, List.take_left]
    exact hx

theorem dfsGo_good (all : List (ℕ × Reach)) (srcs : List String) :
    ∀ (fuel : ℕ) (node : String) (lst : List (ℕ × Reach)) (st : DState),
      GoodO srcs st.ordered → Justified srcs node st.ordered →
      GoodO srcs (dfsGo all fuel node lst st).ordered := by
  intro fuel
  induction fuel with
  | zero => intro node lst st hg _; rw [dfsGo]; exact hg
  | succ fuel ihf =>
      intro node lst
      induction lst with
      | nil => intro st hg _; rw [dfsGo]; exact hg
      | cons p rest ihl =>
          intro st hg hj
          obtain ⟨i, e⟩ := p
          rw [dfsGo]
          by_cases hcond : i ∈ st.used ∨ e.from_code ≠ node
          · rw [if_pos hcond]; exact ihl st hg hj
          · rw [if_neg hcond]
            push_neg at hcond
            have hg' : GoodO srcs (st.ordered ++ [(i, e)]) :=
              goodO_append_one srcs st.ordered (i, e) hg
                (by rw [show (i, e).2.from_code = node from hcond.2]; exact hj)
            have hj2 : Justified srcs e.to_code (st.ordered ++ [(i, e)]) :=
              Or.inr ⟨(i, e),
                List.mem_append_right _ (List.mem_singleton.mpr rfl), rfl⟩
            have hgN := ihf e.to_code all
              ⟨i :: st.used, st.ordered ++ [(i, e)]⟩ hg' hj2
            refine ihl _ hgN ?_
            refine justified_mono srcs node hj ?_
            intro q hq
            exact dfsGo_ordered_mono all fuel e.to_code all _
              (List.mem_append_left _ hq)

theorem syncInv_used_le (all : List (ℕ × Reach)) (st : DState)
    (hs : SyncInv all st) : st.used.length ≤ all.length := by
  obtain ⟨h1, h2, h3, _⟩ := hs
  have hsub : st.used ⊆ all.map Prod.fst := by
    intro i hi
    obtain ⟨p, hp, hpe⟩ := (h2 i).mp hi
    exact hpe ▸ List.mem_map_of_mem Prod.fst (h3 p hp)
  calc st.used.length = st.used.toFinset.card :=
        (List.toFinset_card_of_nodup h1).symm
    _ ≤ (all.map Prod.fst).toFinset.card :=
        Finset.card_le_card
          (fun i hi => List.mem_toFinset.mpr (hsub (List.mem_toFinset.mp hi)))
    _ ≤ (all.map Prod.fst).length := List.toFinset_card_le _
    _ = all.length := List.length_map _ _

theorem dfsGo_closed (all : List (ℕ × Reach)) :
    ∀ (fuel : ℕ) (node : String) (lst : List (ℕ × Reach)) (st : DState),
      (∀ p ∈ lst, p ∈ all) → SyncInv all st → FuelInv all fuel st →
      ∀ p ∈ (dfsGo all fuel node lst st).ordered, p ∉ st.ordered →
      ∀ q ∈ all, q.2.from_code = p.2.to_code →
      q.1 ∈ (dfsGo all fuel node lst st).used := by
  intro fuel
  induction fuel with
  | zero =>
      intro node lst st _ _ _ p hp hpn
      rw [dfsGo] at hp
      exact absurd hp hpn
  | succ fuel ihf =>
      intro node lst
      induction lst with
      | nil =>
          intro st _ _ _ p hp hpn
          rw [dfsGo] at hp
          exact absurd hp hpn
      | cons hd rest ihl =>
          intro st hsub hsync hfuel p hp hpn q hq hqf
          obtain ⟨i, e⟩ := hd
          rw [dfsGo] at hp ⊢
          by_cases hcond : i ∈ st.used ∨ e.from_code ≠ node
          · rw [if_pos hcond] at hp ⊢
            exact ihl st (fun r hr => hsub r (List.mem_cons_of_mem _ hr))
              hsync hfuel p hp hpn q hq hqf
          · rw [if_neg hcond] at hp ⊢
            push_neg at hcond
            have hmem : (i, e) ∈ all := hsub (i, e) (List.mem_cons_self _ _)
            have hsync' : SyncInv all ⟨i :: st.used, st.ordered ++ [(i, e)]⟩ :=
              syncInv_mark all st i e hmem hcond.1 hsync
            have hfuel' : FuelInv all fuel
                ⟨i :: st.used, st.ordered ++ [(i, e)]⟩ := by
              have := hfuel
              simp only [FuelInv, List.length_cons] at this ⊢
              omega
            have hfuel1 : 1 ≤ fuel := by
              have hle := syncInv_used_le all _ hsync'
              simp only [List.length_cons] at hle
              have := hfuel'
              simp only [FuelInv, List.length_cons] at this
              omega
            obtain ⟨f, rfl⟩ : ∃ f, fuel = f + 1 := ⟨fuel - 1, by omega⟩
            have hsyncN : SyncInv all
                (dfsGo all (f + 1) e.to_code all
                  ⟨i :: st.used, st.ordered ++ [(i, e)]⟩) :=
              dfsGo_sync all (f + 1) e.to_code all _ (fun r hr => hr) hsync'
            have hfuelN : FuelInv all (f + 1 + 1)
                (dfsGo all (f + 1) e.to_code all
                  ⟨i :: st.used, st.ordered ++ [(i, e)]⟩) := by
              have hlen := dfsGo_used_len all (f + 1) e.to_code all
                ⟨i :: st.used, st.ordered ++ [(i, e)]⟩
              simp only [List.length_cons] at hlen
              have := hfuel
              simp only [FuelInv] at this ⊢
              omega
            by_cases hpN : p ∈ (dfsGo all (f + 1) e.to_code all
                ⟨i :: st.used, st.ordered ++ [(i, e)]⟩).ordered
            · by_cases hpM : p ∈
                  (DState.mk (i :: st.used) (st.ordered ++ [(i, e)])).ordered
              · have hpe : p = (i, e) := by
                  rcases List.mem_append.mp hpM with h | h
                  · exact absurd h hpn
                  · exact List.mem_singleton.mp h
                obtain ⟨qi, qe⟩ := q
                have hqu : qi ∈ (dfsGo all (f + 1) e.to_code all
                    ⟨i :: st.used, st.ordered ++ [(i, e)]⟩).used := by
                  refine dfsGo_scan_complete all f e.to_code all _ qi qe hq ?_
                  rw [hqf, hpe]
                exact dfsGo_used_mono all (f + 1 + 1) node rest _ hqu
              · have hqu := ihf e.to_code all _ (fun r hr => hr) hsync'
                  hfuel' p hpN hpM q hq hqf
                exact dfsGo_used_mono all (f + 1 + 1) node rest _ hqu
            · exact ihl _ (fun r hr => hsub r (List.mem_cons_of_mem _ hr))
                hsyncN hfuelN p hp hpN q hq hqf

theorem enum_mem_snd {p : ℕ × Reach} {l : List Reach} (h : p ∈ l.enum) :
    p.2 ∈ l :=
  List.get?_mem (List.mem_enum_iff_get?.mp h)

theorem mem_enum_of_mem {e : Reach} {l : List Reach} (h : e ∈ l) :
    ∃ i, (i, e) ∈ l.enum := by
  obtain ⟨⟨i, hi⟩, hg⟩ := List.get_of_mem h
  exact ⟨i, List.mem_enum_iff_get?.mpr (by
    rw [List.get?_eq_get hi]; exact congrArg some hg)⟩

theorem enum_fst_eq {i : ℕ} {a b : Reach} {l : List Reach}
    (ha : (i, a) ∈ l.enum) (hb : (i, b) ∈ l.enum) : a = b := by
  have h1 := List.mem_enum_iff_get?.mp ha
  have h2 := List.mem_enum_iff_get?.mp hb
  simp only at h1 h2
  rw [h1] at h2
  exact Option.some.inj h2

theorem enum_nodup (l : List Reach) : l.enum.Nodup :=
  List.Nodup.of_map Prod.fst (by rw [List.enum_map_fst]; exact List.nodup_range _)

theorem dedupFirst_mem : ∀ (l : List String), ∀ x, x ∈ dedupFirst l ↔ x ∈ l := by
  intro l
  induction l using dedupFirst.induct with
  | case1 => intro x; rw [dedupFirst]
  | case2 y ys ih =>
      intro x
      rw [dedupFirst, List.mem_cons, ih x, List.mem_filter, List.mem_cons]
      by_cases hxy : x = y <;> simp [hxy]

theorem topoFold_used_mono (reaches : List Reach) :
    ∀ (l : List String) (st : DState) {i : ℕ}, i ∈ st.used →
      i ∈ (l.foldl
        (fun st s => dfsGo reaches.enum (reaches.length + 1) s reaches.enum st)
        st).used := by
  intro l
  induction l with
  | nil => intro st i h; exact h
  | cons a l ih =>
      intro st i h
      exact ih _ (dfsGo_used_mono reaches.enum (reaches.length + 1) a
        reaches.enum st h)

theorem topoFold_sync (reaches : List Reach) :
    ∀ (l : List String) (st : DState), SyncInv reaches.enum st →
      SyncInv reaches.enum ((l.foldl
        (fun st s => dfsGo reaches.enum (reaches.length + 1) s reaches.enum st)
        st)) := by
  intro l
  induction l with
  | nil => intro st h; exact h
  | cons a l ih =>
      intro st h
      exact ih _ (dfsGo_sync reaches.enum (reaches.length + 1) a reaches.enum
        st (fun p hp => hp) h)

theorem syncInv_init (reaches : List Reach) :
    SyncInv reaches.enum ⟨[], []⟩ := by
  refine ⟨List.nodup_nil, ?_, ?_, ?_⟩ <;> simp

theorem topoState_sync (reaches : List Reach) :
    SyncInv reaches.enum (topoState reaches) :=
  topoFold_sync reaches (sourceNodes reaches) ⟨[], []⟩ (syncInv_init reaches)

theorem topoFold_good (reaches : List Reach) :
    ∀ (l : List String) (st : DState), (∀ s ∈ l, s ∈ sourceNodes reaches) →
      GoodO (sourceNodes reaches) st.ordered →
      GoodO (sourceNodes reaches) ((l.foldl
        (fun st s => dfsGo reaches.enum (reaches.length + 1) s reaches.enum st)
        st)).ordered := by
  intro l
  induction l with
  | nil => intro st _ h; exact h
  | cons a l ih =>
      intro st hsrc h
      refine ih _ (fun s hs => hsrc s (List.mem_cons_of_mem _ hs)) ?_
      exact dfsGo_good reaches.enum (sourceNodes reaches)
        (reaches.length + 1) a reaches.enum st h
        (Or.inl (hsrc a (List.mem_cons_self _ _)))

theorem topoState_good (reaches : List Reach) :
    GoodO (sourceNodes reaches) (topoState reaches).ordered := by
  refine topoFold_good reaches (sourceNodes reaches) ⟨[], []⟩
    (fun s hs => hs) ?_
  intro k hk
  simp at hk

theorem dfsGo_closedInvFull (all : List (ℕ × Reach)) (fuel : ℕ)
    (node : String) (st : DState) (hs : SyncInv all st)
    (hf : FuelInv all fuel st) (hc : ClosedInv all st) :
    ClosedInv all (dfsGo all fuel node all st) := by
  intro p hp q hq hqf
  by_cases hpo : p ∈ st.ordered
  · exact dfsGo_used_mono all fuel node all st (hc p hpo q hq hqf)
  · exact dfsGo_closed all fuel node all st (fun r hr => hr) hs hf
      p hp hpo q hq hqf

theorem topoFold_closed (reaches : List Reach) :
    ∀ (l : List String) (st : DState), SyncInv reaches.enum st →
      ClosedInv reaches.enum st →
      ClosedInv reaches.enum ((l.foldl
        (fun st s => dfsGo reaches.enum (reaches.length + 1) s reaches.enum st)
        st)) := by
  intro l
  induction l with
  | nil => intro st _ h; exact h
  | cons a l ih =>
      intro st hs hc
      refine ih _ (dfsGo_sync reaches.enum (reaches.length + 1) a
        reaches.enum st (fun p hp => hp) hs) ?_
      refine dfsGo_closedInvFull reaches.enum (reaches.length + 1) a st hs ?_ hc
      simp only [FuelInv, List.enum_length]
      omega

theorem topoState_closed (reaches : List Reach) :
    ClosedInv reaches.enum (topoState reaches) := by
  refine topoFold_closed reaches (sourceNodes reaches) ⟨[], []⟩
    (syncInv_init reaches) ?_
  intro p hp
  simp at hp

theorem topoFold_scan (reaches : List Reach) :
    ∀ (l : List String) (st : DState) (s : String), s ∈ l →
      ∀ (i : ℕ) (e : Reach), (i, e) ∈ reaches.enum → e.from_code = s →
      i ∈ ((l.foldl
        (fun st s => dfsGo reaches.enum (reaches.length + 1) s reaches.enum st)
        st)).used := by
  intro l
  induction l with
  | nil => intro st s hs; cases hs
  | cons a l ih =>
      intro st s hs i e he hef
      rcases List.mem_cons.mp hs with h | h
      · subst h
        refine topoFold_used_mono reaches l _ ?_
        exact dfsGo_scan_complete reaches.enum reaches.length s
          reaches.enum st i e he hef
      · exact ih _ s h i e he hef

theorem topoState_scan (reaches : List Reach) (i : ℕ) (e : Reach)
    (he : (i, e) ∈ reaches.enum)
    (hs : e.from_code ∈ sourceNodes reaches) :
    i ∈ (topoState reaches).used :=
  topoFold_scan reaches (sourceNodes reaches) ⟨[], []⟩ e.from_code hs i e he rfl

theorem topo_all_used (reaches : List Reach) (hA : Acyclic reaches) :
    ∀ p ∈ reaches.enum, p.1 ∈ (topoState reaches).used := by
  obtain ⟨rank, hrank⟩ := hA
  suffices H : ∀ (n i : ℕ) (e : Reach), (i, e) ∈ reaches.enum →
      rank e.from_code < n → i ∈ (topoState reaches).used by
    intro p hp
    obtain ⟨i, e⟩ := p
    exact H (rank e.from_code + 1) i e hp (Nat.lt_succ_self _)
  intro n
  induction n using Nat.strong_induction_on with
  | _ n ih =>
      intro i e he hlt
      by_cases hsrc : e.from_code ∈ sourceNodes reaches
      · exact topoState_scan reaches i e he hsrc
      · have hefrom : e.from_code ∈ reaches.map (fun x => x.from_code) :=
          List.mem_map_of_mem _ (enum_mem_snd he)
        have hto : e.from_code ∈ reaches.map (fun x => x.to_code) := by
          by_contra hto
          apply hsrc
          unfold sourceNodes
          rw [dedupFirst_mem, List.mem_filter]
          exact ⟨hefrom, by simpa using hto⟩
        obtain ⟨e', he', hto'⟩ := List.mem_map.mp hto
        obtain ⟨j, hj⟩ := mem_enum_of_mem he'
        have hj_used : j ∈ (topoState reaches).used := by
          refine ih (rank e.from_code) hlt j e' hj ?_
          have := hrank e' he'
          rw [hto'] at this
          exact this
        obtain ⟨hnodup, h2, h3, h4⟩ := topoState_sync reaches
        obtain ⟨p', hp', hp'1⟩ := (h2 j).mp hj_used
        have hp'enum := h3 p' hp'
        obtain ⟨j', e''⟩ := p'
        simp only at hp'1
        rw [hp'1] at hp'enum hp'
        have he'' : e'' = e' := enum_fst_eq hp'enum hj
        refine topoState_closed reaches (j, e'') hp' (i, e) he ?_
        show e.from_code = e''.to_code
        rw [he'', hto']

theorem topo_perm (reaches : List Reach) :
    ((topoState reaches).ordered ++
      reaches.enum.filter
        (fun p => decide (p.1 ∉ (topoState reaches).used))).Perm
      reaches.enum := by
  classical
  obtain ⟨hnodup, h2, h3, h4⟩ := topoState_sync reaches
  have hOnodup : (topoState reaches).ordered.Nodup :=
    List.Nodup.of_map Prod.fst h4
  have hFnodup : (reaches.enum.filter
      (fun p => decide (p.1 ∉ (topoState reaches).used))).Nodup :=
    (enum_nodup reaches).filter _
  have hdisj : (topoState reaches).ordered.Disjoint
      (reaches.enum.filter
        (fun p => decide (p.1 ∉ (topoState reaches).used))) := by
    intro x hxO hxF
    have hxu : x.1 ∈ (topoState reaches).used := (h2 x.1).mpr ⟨x, hxO, rfl⟩
    have := (List.mem_filter.mp hxF).2
    simp at this
    exact this hxu
  have hmem : ∀ x, x ∈ (topoState reaches).ordered ++
      reaches.enum.filter
        (fun p => decide (p.1 ∉ (topoState reaches).used)) ↔
      x ∈ reaches.enum := by
    intro x
    constructor
    · intro hx
      rcases List.mem_append.mp hx with hx | hx
      · exact h3 x hx
      · exact (List.mem_filter.mp hx).1
    · intro hx
      by_cases hxu : x.1 ∈ (topoState reaches).used
      · obtain ⟨p, hp, hp1⟩ := (h2 x.1).mp hxu
        obtain ⟨xi, xe⟩ := x
        obtain ⟨pi, pe⟩ := p
        simp only at hp1
        rw [hp1] at hp
        have hpe : pe = xe := enum_fst_eq (h3 _ (hp1 ▸ hp)) hx
        · exact List.mem_append_left _ (hpe ▸ hp)
      · refine List.mem_append_right _ (List.mem_filter.mpr ⟨hx, ?_⟩)
        simpa using hxu
  refine List.perm_of_nodup_nodup_toFinset_eq
    (hOnodup.append hFnodup hdisj) (enum_nodup reaches) ?_
  ext x
  simp only [List.mem_toFinset]
  exact hmem x

theorem topo_acyclic_filter_nil (reaches : List Reach)
    (hA : Acyclic reaches) :
    reaches.enum.filter
      (fun p => decide (p.1 ∉ (topoState reaches).used)) = [] := by
  refine List.filter_eq_nil.mpr ?_
  intro p hp
  have := topo_all_used reaches hA p hp
  simp [this]

theorem topo_ordered_decomp (reaches : List Reach)
    (pre : List (ℕ × Reach)) (p : ℕ × Reach) (post : List (ℕ × Reach))
    (hO : (topoState reaches).ordered = pre ++ p :: post) :
    p.2.from_code ∈ sourceNodes reaches ∨
    ∃ q ∈ pre, q.2.to_code = p.2.from_code := by
  have hlen : pre.length < (topoState reaches).ordered.length := by
    rw [hO]; simp
  have hg := topoState_good reaches pre.length hlen
  have hget : (topoState reaches).ordered.get ⟨pre.length, hlen⟩ = p := by
    rw [List.get_of_eq hO]
    simp only [List.get_eq_getElem, Fin.coe_cast]
    rw [List.getElem_append_right (le_refl _)]
    simp
  have htake : (topoState reaches).ordered.take pre.length = pre := by
    rw [hO]; exact List.take_left _ _
  rw [hget, htake] at hg
  exact hg

/-- C6: for every reach list (after trimming and dropping edges with an
empty endpoint, i.e. after `buildGraph`), the traversal order returned by
`topoOrDepthFirst` contains every edge exactly once (it is a permutation
of the edge list); and when the graph is acyclic, every routed edge's
from-node was visited before that edge is routed: it is a source, or some
earlier edge in the order ends at it. -/
theorem C6_traversal (raw : List Reach) :
    (topoOrDepthFirst (buildGraph raw)).Perm (buildGraph raw) ∧
    (Acyclic (buildGraph raw) →
      ∀ (pre : List Reach) (x : Reach) (post : List Reach),
        topoOrDepthFirst (buildGraph raw) = pre ++ x :: post →
        x.from_code ∈ sourceNodes (buildGraph raw) ∨
        ∃ y ∈ pre, y.to_code = x.from_code) := by
  constructor
  · have h := (topo_perm (buildGraph raw)).map Prod.snd
    rw [List.enum_map_snd] at h
    exact h
  · intro hA pre x post hdec
    have hnil := topo_acyclic_filter_nil (buildGraph raw) hA
    have hout : topoOrDepthFirst (buildGraph raw) =
        ((topoState (buildGraph raw)).ordered).map (fun p => p.2) := by
      show ((topoState (buildGraph raw)).ordered ++
          (buildGraph raw).enum.filter
            (fun p => decide (p.1 ∉ (topoState (buildGraph raw)).used))).map
          (fun p => p.2) = _
      rw [hnil, List.append_nil]
    rw [hout] at hdec
    rcases List.map_eq_append_iff.mp hdec with ⟨s, t, hl, hs, ht⟩
    rcases List.map_eq_cons_iff.mp ht with ⟨p, t', htt, hp, hpost⟩
    have hOdec : (topoState (buildGraph raw)).ordered = s ++ p :: t' := by
      rw [hl, htt]
    have hp2 : p.2 = x := hp
    rcases topo_ordered_decomp (buildGraph raw) s p t' hOdec with h | ⟨q, hq, hqto⟩
    · left
      rw [← hp2]
      exact h
    · right
      refine ⟨q.2, ?_, ?_⟩
      · rw [← hs]
        exact List.mem_map_of_mem _ hq
      · rw [← hp2]
        exact hqto

theorem buildGraph_pair : buildGraph [edgeW1, edgeW2] = [edgeW1, edgeW2] := rfl

theorem sourceNodes_pair : sourceNodes [edgeW1, edgeW2] = ["a"] := by
  show dedupFirst (([edgeW1, edgeW2].map (fun e => e.from_code)).filter
    (fun c => decide (c ∉ [edgeW1, edgeW2].map (fun e => e.to_code)))) = ["a"]
  rw [show (([edgeW1, edgeW2].map (fun e => e.from_code)).filter
    (fun c => decide (c ∉ [edgeW1, edgeW2].map (fun e => e.to_code)))) = ["a"]
    from rfl]
  rw [dedupFirst]
  simp
  rw [dedupFirst]

theorem dfs_pair_c : dfsGo [(0, edgeW1), (1, edgeW2)] 1 "c"
    [(0, edgeW1), (1, edgeW2)] ⟨[1, 0], [(0, edgeW1), (1, edgeW2)]⟩ =
    ⟨[1, 0], [(0, edgeW1), (1, edgeW2)]⟩ := by
  rw [dfsGo, if_pos (by decide), dfsGo, if_pos (by decide), dfsGo]

theorem dfs_pair_b : dfsGo [(0, edgeW1), (1, edgeW2)] 2 "b"
    [(0, edgeW1), (1, edgeW2)] ⟨[0], [(0, edgeW1)]⟩ =
    ⟨[1, 0], [(0, edgeW1), (1, edgeW2)]⟩ := by
  rw [dfsGo, if_pos (by decide), dfsGo, if_neg (by decide)]
  show dfsGo [(0, edgeW1), (1, edgeW2)] 2 "b" []
      (dfsGo [(0, edgeW1), (1, edgeW2)] 1 "c" [(0, edgeW1), (1, edgeW2)]
        ⟨[1, 0], [(0, edgeW1), (1, edgeW2)]⟩) =
      ⟨[1, 0], [(0, edgeW1), (1, edgeW2)]⟩
  rw [dfs_pair_c, dfsGo]

theorem dfs_pair_a : dfsGo [(0, edgeW1), (1, edgeW2)] 3 "a"
    [(0, edgeW1), (1, edgeW2)] ⟨[], []⟩ =
    ⟨[1, 0], [(0, edgeW1), (1, edgeW2)]⟩ := by
  rw [dfsGo, if_neg (by decide)]
  show dfsGo [(0, edgeW1), (1, edgeW2)] 3 "a" [(1, edgeW2)]
      (dfsGo [(0, edgeW1), (1, edgeW2)] 2 "b" [(0, edgeW1), (1, edgeW2)]
        ⟨[0], [(0, edgeW1)]⟩) =
      ⟨[1, 0], [(0, edgeW1), (1, edgeW2)]⟩
  rw [dfs_pair_b, dfsGo, if_pos (by decide), dfsGo]

theorem topoState_pair : topoState [edgeW1, edgeW2] =
    ⟨[1, 0], [(0, edgeW1), (1, edgeW2)]⟩ := by
  show (sourceNodes [edgeW1, edgeW2]).foldl
    (fun st s => dfsGo [edgeW1, edgeW2].enum
      ([edgeW1, edgeW2].length + 1) s [edgeW1, edgeW2].enum st) ⟨[], []⟩ =
      ⟨[1, 0], [(0, edgeW1), (1, edgeW2)]⟩
  rw [sourceNodes_pair]
  simp only [List.foldl_cons, List.foldl_nil]
  show dfsGo [(0, edgeW1), (1, edgeW2)] 3 "a"
      [(0, edgeW1), (1, edgeW2)] ⟨[], []⟩ =
      ⟨[1, 0], [(0, edgeW1), (1, edgeW2)]⟩
  exact dfs_pair_a

theorem topoOut_pair :
    topoOrDepthFirst (buildGraph [edgeW1, edgeW2]) = [edgeW1, edgeW2] := by
  rw [buildGraph_pair]
  show ((topoState [edgeW1, edgeW2]).ordered ++
      [edgeW1, edgeW2].enum.filter
        (fun p => decide (p.1 ∉ (topoState [edgeW1, edgeW2]).used))).map
      (fun p => p.2) = [edgeW1, edgeW2]
  rw [topoState_pair]
  rfl

theorem acyclic_pair : Acyclic (buildGraph [edgeW1, edgeW2]) := by
  rw [buildGraph_pair]
  refine ⟨fun s => if s = "a" then 0 else if s = "b" then 1 else 2, ?_⟩
  intro e he
  rcases List.mem_cons.mp he with h | h
  · subst h; decide
  · rcases List.mem_cons.mp h with h | h
    · subst h; decide
    · cases h

/-- Witness for C6 on the acyclic two-edge graph a→b→c: the traversal is a
permutation of the edge list, and the second routed edge (b→c) is preceded
by an edge ending at its from-node. -/
theorem C6_traversal_witness :
    Acyclic (buildGraph [edgeW1, edgeW2]) ∧
    (topoOrDepthFirst (buildGraph [edgeW1, edgeW2])).Perm
      (buildGraph [edgeW1, edgeW2]) ∧
    (edgeW2.from_code ∈ sourceNodes (buildGraph [edgeW1, edgeW2]) ∨
      ∃ y ∈ [edgeW1], y.to_code = edgeW2.from_code) := by
  refine ⟨acyclic_pair, (C6_traversal [edgeW1, edgeW2]).1, ?_⟩
  refine (C6_traversal [edgeW1, edgeW2]).2 acyclic_pair [edgeW1] edgeW2 [] ?_
  rw [topoOut_pair]
  rfl

theorem insertOrd_sorted {α : Type} (f : α → ℤ) (x : α) :
    ∀ l : List α, l.Pairwise (fun a b => f a ≤ f b) →
      (insertOrd (fun a b => decide (f a < f b)) x l).Pairwise
        (fun a b => f a ≤ f b) := by
  intro l
  induction l with
  | nil => intro _; simp [insertOrd]
  | cons y ys ih =>
      intro h
      rw [List.pairwise_cons] at h
      obtain ⟨hy, hys⟩ := h
      rw [insertOrd]
      by_cases hc : f y < f x
      · rw [if_pos (by simp [hc])]
        rw [List.pairwise_cons]
        refine ⟨?_, ih hys⟩
        intro z hz
        rcases List.mem_cons.mp ((insertOrd_perm _ x ys).mem_iff.mp hz)
          with hz | hz
        · rw [hz]; exact le_of_lt hc
        · exact hy z hz
      · rw [if_neg (by simp [hc])]
        rw [List.pairwise_cons]
        refine ⟨?_, List.pairwise_cons.mpr ⟨hy, hys⟩⟩
        intro z hz
        rcases List.mem_cons.mp hz with hz | hz
        · rw [hz]; exact le_of_not_lt hc
        · exact le_trans (le_of_not_lt hc) (hy z hz)

theorem sortOrd_sorted {α : Type} (f : α → ℤ) :
    ∀ l : List α,
      (sortOrd (fun a b => decide (f a < f b)) l).Pairwise
        (fun a b => f a ≤ f b) := by
  intro l
  induction l with
  | nil => simp [sortOrd]
  | cons x xs ih =>
      rw [sortOrd]
      exact insertOrd_sorted f x _ ih

theorem insertOrd_filter_ties {α : Type} (f : α → ℤ) (x : α) (k : ℤ) :
    ∀ l : List α, l.Pairwise (fun a b => f a ≤ f b) →
      (insertOrd (fun a b => decide (f a < f b)) x l).filter
          (fun a => decide (f a = k)) =
        if f x = k then x :: l.filter (fun a => decide (f a = k))
        else l.filter (fun a => decide (f a = k)) := by
  intro l
  induction l with
  | nil =>
      intro _
      by_cases hx : f x = k <;> simp [insertOrd, List.filter_cons, hx]
  | cons y ys ih =>
      intro h
      rw [List.pairwise_cons] at h
      obtain ⟨hy, hys⟩ := h
      rw [insertOrd]
      by_cases hc : f y < f x
      · rw [if_pos (by simp [hc])]
        rw [List.filter_cons, ih hys]
        by_cases hyk : f y = k
        · have hxk : ¬(f x = k) := by
            intro hxk
            rw [hyk, hxk] at hc
            exact lt_irrefl k hc
          simp [hyk, hxk, List.filter_cons]
        · by_cases hxk : f x = k <;> simp [hyk, hxk, List.filter_cons]
      · rw [if_neg (by simp [hc])]
        by_cases hxk : f x = k <;> simp [hxk, List.filter_cons]

theorem sortOrd_stable_ties {α : Type} (f : α → ℤ) (k : ℤ) :
    ∀ l : List α,
      (sortOrd (fun a b => decide (f a < f b)) l).filter
          (fun a => decide (f a = k)) =
        l.filter (fun a => decide (f a = k)) := by
  intro l
  induction l with
  | nil => rfl
  | cons x xs ih =>
      rw [sortOrd, insertOrd_filter_ties f x k _ (sortOrd_sorted f xs)]
      by_cases hxk : f x = k
      · simp [hxk, List.filter_cons, ih]
      · simp [hxk, List.filter_cons, ih]

end Akva